import Mathlib

set_option linter.all false
set_option maxRecDepth 4000

/-!
Shallow embedding of `lib/logstorage/pipe_sort.go` (the `sort` pipe of the
VictoriaLogs query pipeline) and proofs about it.

Conventions of the embedding:
* Go `int64`/`uint64` values are modelled as `Int`/`Nat`; the only overflow the
  embedded code can hit is in `tryParseInt64`, where the Go wrap-around of
  `-int64(1 << 63)` is reasoned about explicitly in a comment.
* Go `float64` cells are modelled by `F64`: either NaN or an exact rational.
  The comparator only ever tests NaN-ness, equality and `<` of parsed decimal
  literals, for which the exact-rational model agrees with IEEE-754 on every
  value appearing in this development.
* Go strings are Lean `String`s.  Go compares strings byte-wise; for valid
  UTF-8 the byte-wise order coincides with the code-point lexicographic order
  used by `String.lt`, so `<` on `String` models Go string comparison.
* Mutation is modelled by explicit state passing; loops by structural
  recursion (with ample fuel where the Go loop bound is data dependent).
* Functions of this repository that are referenced by `pipe_sort.go` but whose
  sources are not part of this development are modelled from the spec; each
  such definition carries a doc comment starting with `Modelled from the spec:`.
-/

/-! Helper lemmas about the digit parsers. -/

/-- Model of IEEE-754 float64 values as used by the sort pipe: either NaN or a
finite value represented exactly as the (not necessarily reduced) fraction
`num / den` with `den > 0` at every construction site.  Infinities and the
sign of zero play no role in any embedded code path.  Comparisons are by
cross-multiplication, so they are comparisons of the represented rational
values. -/
inductive F64 where
  | nan : F64
  | val (num : Int) (den : Nat) : F64
deriving DecidableEq, Inhabited, Repr

/-- Model of Go `math.IsNaN`. -/
def F64.isNaN : F64 → Bool
  | .nan => true
  | .val _ _ => false

/-- Model of the IEEE-754 `==` on float64 as used by the comparator (which
only applies it to two non-NaN values): value equality of the fractions;
every comparison involving NaN is false, as in IEEE-754. -/
def F64.eqv : F64 → F64 → Bool
  | .val a b, .val c d => decide (a * (d : Int) = c * (b : Int))
  | _, _ => false

/-- Model of the IEEE-754 `<` on float64: value order of the fractions; every
comparison involving NaN is false. -/
def F64.lt : F64 → F64 → Bool
  | .val a b, .val c d => decide (a * (d : Int) < c * (b : Int))
  | _, _ => false

/-- Decimal value of a digit list (most significant first), as read by the Go
parsers. -/
def decDigitsVal (l : List Char) : Nat :=
  l.foldl (fun acc c => acc * 10 + (c.toNat - 48)) 0

/-- Whether `l` is a non-empty list of decimal digits. -/
def isDecDigits (l : List Char) : Bool :=
  !l.isEmpty && l.all (fun c => c.isDigit)

/-- Modelled from the spec: `tryParseUint64` (lib/logstorage, not under src/).
Per §4.A the remainder of an integer literal is parsed "as unsigned": a
non-empty all-decimal-digit string whose value fits in an unsigned 64-bit
integer. -/
def tryParseUint64 (s : String) : Option Nat :=
  if isDecDigits s.data ∧ decDigitsVal s.data < 2 ^ 64 then
    some (decDigitsVal s.data)
  else
    none

/-- `tryParseInt64` from `pipe_sort.go`.  Notes on the Go arithmetic: the
positive branch rejects `u64 > math.MaxInt64 = 2^63 - 1`; the negative branch
rejects `u64 > -math.MinInt64 = 2^63` and otherwise returns `-int64(u64)`.
For `u64 = 2^63` the conversion `int64(u64)` wraps to `-2^63` and the negation
wraps back to `-2^63`, so every accepted value is mathematically `-(u64)`,
which is what the model returns directly. -/
def tryParseInt64 (s : String) : Option Int :=
  if s.length = 0 then none
  else
    let isMinus := s.data.headD ' ' = '-'
    let rest := if isMinus then String.mk s.data.tail else s
    match tryParseUint64 rest with
    | none => none
    | some u64 =>
      if !isMinus then
        if u64 > 2 ^ 63 - 1 then none else some (u64 : Int)
      else
        if u64 > 2 ^ 63 then none else some (-(u64 : Int))

/-- Value of one dotted-quad octet: at most three decimal digits, value at
most 255. -/
def ipv4Octet (part : List Char) : Option Nat :=
  if isDecDigits part ∧ part.length ≤ 3 ∧ decDigitsVal part ≤ 255 then
    some (decDigitsVal part)
  else
    none

/-- Modelled from the spec: `tryParseIPv4` (lib/logstorage, not under src/).
Per §4.A it parses a dotted-quad IPv4 address into a `uint32`; failure yields
zero (the zero result is produced at the call site, which discards the ok
flag). -/
def tryParseIPv4 (s : String) : Option Nat :=
  match s.data.splitOn '.' with
  | [a, b, c, d] =>
    match ipv4Octet a, ipv4Octet b, ipv4Octet c, ipv4Octet d with
    | some a', some b', some c', some d' =>
      some (((a' * 256 + b') * 256 + c') * 256 + d')
    | _, _, _, _ => none
  | _ => none

/-- Modelled from the spec: `tryParseFloat64` (lib/logstorage, not under
src/).  Per §4.A it is a standard float64 parse whose failure yields NaN.  The
model accepts an optional minus sign, an integer part and an optional
fractional part, and returns the exact rational value (decimal→binary rounding
is not modelled; no claim depends on it, every float compared concretely in
this development is exactly representable). -/
def tryParseFloat64 (s : String) : Option F64 :=
  let l := s.data
  let neg := l.headD ' ' = '-'
  let l' := if neg then l.tail else l
  let q? : Option (Int × Nat) :=
    match l'.splitOn '.' with
    | [ip] => if isDecDigits ip then some ((decDigitsVal ip : Int), 1) else none
    | [ip, fp] =>
      if isDecDigits ip ∧ isDecDigits fp then
        some (((decDigitsVal ip * 10 ^ fp.length + decDigitsVal fp : Nat) : Int), 10 ^ fp.length)
      else none
    | _ => none
  match q? with
  | none => none
  | some (num, den) => some (.val (if neg then -num else num) den)

/-- Byte-lexicographic order on strings, as Go compares strings.  For valid
UTF-8 the byte-wise order coincides with the code-point lexicographic order,
so the comparison recurses over the characters. -/
def goStringLtList : List Char → List Char → Bool
  | [], [] => false
  | [], _ :: _ => true
  | _ :: _, [] => false
  | a :: as, b :: bs => if a = b then goStringLtList as bs else decide (a < b)

/-- Go `s1 < s2` on strings. -/
def goStringLt (a b : String) : Bool := goStringLtList a.data b.data

/-- Modelled from the spec: a result column of a block (`blockResultColumn`,
block_result.go, not under src/).  Per §6 a column exposes a name, the flags
`isConst` and `isTime`, an `encodedValues` array and a per-row string
accessor.  For the string-typed columns manipulated by the sort pipe the
encoded values are the per-row values themselves; for const columns
`encodedValues` holds the single shared value.  Other value types (dict,
timestamps formatting) are elided: no claim inspects them. -/
structure blockResultColumn where
  name : String
  isConst : Bool
  isTime : Bool
  encodedValues : List String
deriving DecidableEq, Inhabited, Repr

/-- Modelled from the spec: a columnar result block (`blockResult`,
block_result.go, not under src/): a timestamp vector plus named columns
(§6). -/
structure blockResult where
  timestamps : List Int
  columns : List blockResultColumn
deriving DecidableEq, Inhabited, Repr

/-- Modelled from the spec: `blockResultColumn.getValueAtRow`: const columns
expose `encodedValues[0]` for every row, other columns the row's value.  The
formatting of `_time` column values is not modelled: the comparator never
reaches the string tier when a time column is involved, and no claim inspects
emitted time strings. -/
def blockResultColumn.getValueAtRow (c : blockResultColumn) (br : blockResult) (rowIdx : Nat) : String :=
  if c.isConst then c.encodedValues.getD 0 "" else c.encodedValues.getD rowIdx ""

/-- Checked variant of `blockResultColumn.getValueAtRow`: `none` on an
out-of-bounds array access. -/
def blockResultColumn.getValueAtRowChecked (c : blockResultColumn) (br : blockResult) (rowIdx : Nat) : Option String :=
  if c.isConst then c.encodedValues.get? 0 else c.encodedValues.get? rowIdx

/-- Modelled from the spec: `blockResult.getColumnByName` resolves a column by
name; a missing column resolves to a const column holding the empty string. -/
def blockResult.getColumnByName (br : blockResult) (name : String) : blockResultColumn :=
  match br.columns.find? (fun c => c.name = name) with
  | some c => c
  | none => { name := name, isConst := true, isTime := false, encodedValues := [""] }

/-- Modelled from the spec: `blockResultColumn.getValues` returns the per-row
values of a (non-const, non-time) column, which for the string-typed columns
of this development are the encoded values. -/
def blockResultColumn.getValues (c : blockResultColumn) (br : blockResult) : List String :=
  c.encodedValues

/-- `bySortField` from `pipe_sort.go`: one `by(...)` entry. -/
structure bySortField where
  name : String
  isDesc : Bool
deriving DecidableEq, Inhabited, Repr

/-- `pipeSort` from `pipe_sort.go`: the sort configuration. -/
structure pipeSort where
  byFields : List bySortField
  isDesc : Bool
deriving DecidableEq, Inhabited, Repr

/-- `sortBlockByColumn` from `pipe_sort.go`. -/
structure sortBlockByColumn where
  c : blockResultColumn
  i64Values : List Int
  f64Values : List F64
deriving DecidableEq, Inhabited, Repr

/-- `sortBlock` from `pipe_sort.go`. -/
structure sortBlock where
  br : blockResult
  byColumns : List sortBlockByColumn
  otherColumns : List blockResultColumn
deriving DecidableEq, Inhabited, Repr

/-- `sortRowRef` from `pipe_sort.go`. -/
structure sortRowRef where
  blockIdx : Nat
  rowIdx : Nat
deriving DecidableEq, Inhabited, Repr

/-- `sortBlockByColumn.getI64ValueAtRow` from `pipe_sort.go`. -/
def sortBlockByColumn.getI64ValueAtRow (c : sortBlockByColumn) (rowIdx : Nat) : Int :=
  if c.c.isConst then c.i64Values.getD 0 0 else c.i64Values.getD rowIdx 0

/-- `sortBlockByColumn.getF64ValueAtRow` from `pipe_sort.go`. -/
def sortBlockByColumn.getF64ValueAtRow (c : sortBlockByColumn) (rowIdx : Nat) : F64 :=
  if c.c.isConst then c.f64Values.getD 0 .nan else c.f64Values.getD rowIdx .nan

/-- Checked variant of `getI64ValueAtRow`: `none` on out-of-bounds. -/
def sortBlockByColumn.getI64ValueAtRowChecked (c : sortBlockByColumn) (rowIdx : Nat) : Option Int :=
  if c.c.isConst then c.i64Values.get? 0 else c.i64Values.get? rowIdx

/-- Checked variant of `getF64ValueAtRow`: `none` on out-of-bounds. -/
def sortBlockByColumn.getF64ValueAtRowChecked (c : sortBlockByColumn) (rowIdx : Nat) : Option F64 :=
  if c.c.isConst then c.f64Values.get? 0 else c.f64Values.get? rowIdx

/-- `pipeSortProcessorShard` from `pipe_sort.go` (the padded wrapper and the
Nopad split are layout only and collapsed into one structure). -/
structure pipeSortProcessorShard where
  ps : pipeSort
  blocks : List sortBlock
  rowRefs : List sortRowRef
  rowRefNext : Nat
  stateSizeBudget : Int
deriving DecidableEq, Inhabited, Repr

/-- Effective per-key direction, as computed at the top of the comparator loop
in `sortBlockLess`: `len(byFields) > 0 && byFields[idx].isDesc`, flipped by the
global `isDesc`. -/
def effectiveDesc (ps : pipeSort) (idx : Nat) : Bool :=
  let isDesc := decide (ps.byFields.length > 0) && (ps.byFields.getD idx default).isDesc
  if ps.isDesc then !isDesc else isDesc

/-- One iteration of the key loop of `sortBlockLess` from `pipe_sort.go`:
`some r` models `return r`, `none` models `continue` (fall through to the next
key). -/
def sortBlockCompareAt (ps : pipeSort) (bA : sortBlock) (rrA : sortRowRef)
    (bB : sortBlock) (rrB : sortRowRef) (idx : Nat) : Option Bool :=
  let cA := bA.byColumns.getD idx default
  let cB := bB.byColumns.getD idx default
  let isDesc := effectiveDesc ps idx
  if cA.c.isConst && cB.c.isConst then
    -- Fast path - compare const values
    let ccA := cA.c.encodedValues.getD 0 ""
    let ccB := cB.c.encodedValues.getD 0 ""
    if ccA = ccB then none else some (goStringLt ccA ccB)
  else if cA.c.isTime && cB.c.isTime then
    -- Fast path - sort by _time
    let tA := bA.br.timestamps.getD rrA.rowIdx 0
    let tB := bB.br.timestamps.getD rrB.rowIdx 0
    if tA = tB then none
    else if isDesc then some (decide (tB < tA)) else some (decide (tA < tB))
  else if cA.c.isTime then
    -- treat timestamps as smaller than other values
    some true
  else if cB.c.isTime then
    -- treat timestamps as smaller than other values
    some false
  else
    -- Try sorting by int64 values at first
    let uA := cA.getI64ValueAtRow rrA.rowIdx
    let uB := cB.getI64ValueAtRow rrB.rowIdx
    if uA ≠ 0 ∧ uB ≠ 0 then
      if uA = uB then none
      else if isDesc then some (decide (uB < uA)) else some (decide (uA < uB))
    else
      -- Try sorting by float64 then
      let fA := cA.getF64ValueAtRow rrA.rowIdx
      let fB := cB.getF64ValueAtRow rrB.rowIdx
      if !fA.isNaN && !fB.isNaN then
        if fA.eqv fB then none
        else if isDesc then some (F64.lt fB fA) else some (F64.lt fA fB)
      else
        -- Fall back to string sorting
        let sA := cA.c.getValueAtRow bA.br rrA.rowIdx
        let sB := cB.c.getValueAtRow bB.br rrB.rowIdx
        if sA = sB then none
        else if isDesc then some (goStringLt sB sA) else some (goStringLt sA sB)

/-- The key loop of `sortBlockLess`: iterate the key indices, returning the
first decided comparison, `false` when every key compares equal. -/
def sortBlockLessLoop (ps : pipeSort) (bA : sortBlock) (rrA : sortRowRef)
    (bB : sortBlock) (rrB : sortRowRef) : List Nat → Bool
  | [] => false
  | idx :: rest =>
    match sortBlockCompareAt ps bA rrA bB rrB idx with
    | some r => r
    | none => sortBlockLessLoop ps bA rrA bB rrB rest

/-- The body of `sortBlockLess` from `pipe_sort.go` after the row-reference
lookups: `byFields` and the global direction are read from the first shard's
`ps`, and the loop runs over the indices of `bA.byColumns`. -/
def sortRowRefLess (shardA : pipeSortProcessorShard) (rrA : sortRowRef)
    (shardB : pipeSortProcessorShard) (rrB : sortRowRef) : Bool :=
  let bA := shardA.blocks.getD rrA.blockIdx default
  let bB := shardB.blocks.getD rrB.blockIdx default
  sortBlockLessLoop shardA.ps bA rrA bB rrB (List.range bA.byColumns.length)

/-- `sortBlockLess` from `pipe_sort.go`: compares the rows referenced by
`shardA.rowRefs[rowIdxA]` and `shardB.rowRefs[rowIdxB]`. -/
def sortBlockLess (shardA : pipeSortProcessorShard) (rowIdxA : Nat)
    (shardB : pipeSortProcessorShard) (rowIdxB : Nat) : Bool :=
  sortRowRefLess shardA (shardA.rowRefs.getD rowIdxA default)
    shardB (shardB.rowRefs.getD rowIdxB default)

/-- Modelled: Go `strconv.AppendQuote` (standard library).  Produces a
double-quoted string; only the escapes for `"` and backslash are modelled
(control-character escaping is elided; no claim depends on it). -/
def goQuote (s : String) : String :=
  "\"" ++ String.join (s.data.map (fun c =>
    if c = '"' then "\\\"" else if c = '\\' then "\\\\" else String.mk [c])) ++ "\""

/-- `marshalJSONKeyValue` from `pipe_sort.go`. -/
def marshalJSONKeyValue (dst : String) (k v : String) : String :=
  dst ++ goQuote k ++ ":" ++ goQuote v

/-- `pipeSortProcessorShard.createInt64Values` from `pipe_sort.go` (the budget
charge performed there is accounted for by the caller's lump-sum model, see
`pipeSortProcessorShard.writeBlock`): `tryParseInt64` when it succeeds, else
the IPv4 value with zero on failure. -/
def createInt64Values (values : List String) : List Int :=
  values.map (fun v =>
    match tryParseInt64 v with
    | some i64 => i64
    | none => ((tryParseIPv4 v).getD 0 : Int))

/-- `pipeSortProcessorShard.createFloat64Values` from `pipe_sort.go`:
`tryParseFloat64` with NaN on failure. -/
def createFloat64Values (values : List String) : List F64 :=
  values.map (fun v => (tryParseFloat64 v).getD .nan)

/-- Modelled approximately: the byte-size charges of `shard.writeBlock`
(`br.sizeBytes()` plus several `unsafe.Sizeof` terms).  The source charges
machine-level sizes; the model charges the value bytes plus eight bytes per
timestamp and per row reference.  No claim depends on the exact amounts, only
on the direction of the budget flow. -/
def blockResult.sizeBytes (br : blockResult) : Int :=
  8 * br.timestamps.length +
    (br.columns.map (fun c => ((c.encodedValues.map String.utf8ByteSize).sum : Int))).sum

/-- `pipeSortProcessorShard.writeBlock` from `pipe_sort.go`: clone the block
(the model's values are immutable, so cloning is the identity), build the
`byColumns` side arrays (a single synthesized JSON string column when the key
list is empty), collect the non-key columns, append the block and one row
reference per row, and charge the state-size budget. -/
def pipeSortProcessorShard.writeBlock (shard : pipeSortProcessorShard) (br : blockResult) :
    pipeSortProcessorShard :=
  let cs := br.columns
  let byFields := shard.ps.byFields
  let (byColumns, otherColumns) :=
    if byFields.length = 0 then
      -- Sort by all the columns: JSON-encode all the columns per each row into
      -- a single string and sort rows by the resulting string.
      let rcValues := (List.range br.timestamps.length).map (fun i =>
        cs.foldl (fun acc c => marshalJSONKeyValue acc c.name (c.getValueAtRow br i) ++ ",") "")
      let byColumns : List sortBlockByColumn :=
        [{ c := { name := "", isConst := false, isTime := false, encodedValues := rcValues },
           i64Values := List.replicate br.timestamps.length 0,
           f64Values := List.replicate br.timestamps.length .nan }]
      (byColumns, cs)
    else
      let byColumns := byFields.map (fun bf =>
        let c := br.getColumnByName bf.name
        if c.isTime then
          -- Do not initialize i64Values and f64Values, since they aren't used.
          { c := c, i64Values := [], f64Values := [] }
        else if c.isConst then
          { c := c, i64Values := createInt64Values c.encodedValues,
            f64Values := createFloat64Values c.encodedValues }
        else
          { c := c, i64Values := createInt64Values (c.getValues br),
            f64Values := createFloat64Values (c.getValues br) })
      let otherColumns := cs.filter (fun c => !(byFields.any (fun bf => bf.name = c.name)))
      (byColumns, otherColumns)
  let blockIdx := shard.blocks.length
  let newRefs := (List.range br.timestamps.length).map
    (fun i => { blockIdx := blockIdx, rowIdx := i : sortRowRef })
  { shard with
    blocks := shard.blocks ++ [{ br := br, byColumns := byColumns, otherColumns := otherColumns }],
    rowRefs := shard.rowRefs ++ newRefs,
    stateSizeBudget := shard.stateSizeBudget - (br.sizeBytes + 8 * newRefs.length + 64) }

/-- Insertion of one row reference into a run sorted by `less`; together with
`insertionSortRR` this models the stdlib `sort.Sort(shard)` call of `flush`:
per spec §4.C any comparison sort over the comparator is acceptable, and
`sort.Sort` is explicitly unstable. -/
def insertRR (less : sortRowRef → sortRowRef → Bool) (x : sortRowRef) :
    List sortRowRef → List sortRowRef
  | [] => [x]
  | y :: ys => if less x y then x :: y :: ys else y :: insertRR less x ys

/-- Model of `sort.Sort(shard)`: sort the row references by the comparator. -/
def insertionSortRR (less : sortRowRef → sortRowRef → Bool) :
    List sortRowRef → List sortRowRef
  | [] => []
  | x :: xs => insertRR less x (insertionSortRR less xs)

/-- The per-shard local sort performed by `flush`: `sort.Sort(shard)` permutes
`shard.rowRefs` under `shard.Less`, which is `sortBlockLess` with both sides
in this shard. -/
def pipeSortProcessorShard.sortShard (shard : pipeSortProcessorShard) : pipeSortProcessorShard :=
  { shard with
    rowRefs := insertionSortRR (fun ra rb => sortRowRefLess shard ra shard rb) shard.rowRefs }

/-- `pipeSortProcessor` from `pipe_sort.go`.  The `stopCh` channel is modelled
by the `stopped` flag (closed = `true`); the external `cancel` callback by the
`cancelCalled` flag, recording whether the processor ever invoked it. -/
structure pipeSortProcessor where
  ps : pipeSort
  stopped : Bool
  cancelCalled : Bool
  shards : List pipeSortProcessorShard
  maxStateSize : Int
  stateSizeBudget : Int
deriving DecidableEq, Inhabited, Repr

/-- `newPipeProcessor` (method of `pipeSort`) from `pipe_sort.go`.
`memory.Allowed()` is an environment input and passed as `allowedMemory`; the
multiplication by the float constant 0.2 is modelled as the exact `*2/10`
truncated (`Int.div` truncates toward zero exactly as Go's `int64`
conversion/division; no claim depends on the rounding of 0.2 itself).
`stateSizeBudgetChunk` is repository code not under src/ and is passed as the
positive parameter `chunk` (spec §4.D: implementation-defined). -/
def newPipeProcessor (ps : pipeSort) (workersCount : Nat) (allowedMemory : Nat) (chunk : Int) :
    pipeSortProcessor :=
  let maxStateSize : Int := Int.div ((allowedMemory : Int) * 2) 10 - workersCount * chunk
  { ps := ps
    stopped := false
    cancelCalled := false
    shards := List.replicate workersCount
      { ps := ps, blocks := [], rowRefs := [], rowRefNext := 0, stateSizeBudget := chunk }
    maxStateSize := maxStateSize
    stateSizeBudget := maxStateSize }

/-- The budget-stealing loop at the top of `pipeSortProcessor.writeBlock`:
while the shard budget is negative, atomically subtract one chunk from the
global budget; on a negative remainder refuse the write (and report whether
this very subtraction drove the global budget from non-negative to negative,
i.e. whether `remaining + chunk >= 0`, in which case the source invokes
`cancel()`); otherwise credit the chunk to the shard budget and re-check.
Result: (global', shardBudget', ingest?, cancelNow?).  The fuel argument only
bounds the recursion; `pipeSortProcessor.writeBlock` passes enough fuel for
every positive chunk. -/
def stealLoop (chunk : Int) : Nat → Int → Int → Int × Int × Bool × Bool
  | 0, g, b => (g, b, false, false)
  | Nat.succ fuel, g, b =>
    if b < 0 then
      let remaining := g - chunk
      if remaining < 0 then
        (remaining, b, false, decide (0 ≤ remaining + chunk))
      else
        stealLoop chunk fuel remaining (b + chunk)
    else (g, b, true, false)

/-- `pipeSortProcessor.writeBlock` from `pipe_sort.go`: drop empty blocks,
run the budget-stealing loop for the worker's shard, then either refuse the
write (recording a `cancel()` invocation when this call drove the global
budget negative) or ingest the block into the shard. -/
def pipeSortProcessor.writeBlock (chunk : Int) (psp : pipeSortProcessor) (workerID : Nat)
    (br : blockResult) : pipeSortProcessor :=
  if br.timestamps.length = 0 then psp
  else
    let shard := psp.shards.getD workerID default
    let r := stealLoop chunk (shard.stateSizeBudget.natAbs + 1)
      psp.stateSizeBudget shard.stateSizeBudget
    if r.2.2.1 then
      { psp with
        stateSizeBudget := r.1,
        shards := psp.shards.set workerID
          (pipeSortProcessorShard.writeBlock { shard with stateSizeBudget := r.2.1 } br) }
    else
      { psp with
        stateSizeBudget := r.1,
        cancelCalled := psp.cancelCalled || r.2.2.2,
        shards := psp.shards.set workerID { shard with stateSizeBudget := r.2.1 } }

/-- `resultColumn` (resultColumn of block_result.go, as used by the write
context): a named column accumulating one value per appended row. -/
structure resultColumn where
  name : String
  values : List String
deriving DecidableEq, Inhabited, Repr

/-- `pipeSortWriteContext` from `pipe_sort.go`.  The downstream
`ppBase.writeBlock(workerId, block)` calls are recorded in `writes` in call
order as `(workerId, column snapshot)` pairs. -/
structure pipeSortWriteContext where
  rcs : List resultColumn
  valuesLen : Nat
  writes : List (Nat × List resultColumn)
deriving DecidableEq, Inhabited, Repr

/-- `pipeSortWriteContext.flush` from `pipe_sort.go`: reset `valuesLen`, and
when there are accumulated columns, write them downstream with worker id 0 and
reset the values keeping the column names. -/
def pipeSortWriteContext.flush (wctx : pipeSortWriteContext) : pipeSortWriteContext :=
  if wctx.rcs.length = 0 then { wctx with valuesLen := 0 }
  else
    { rcs := wctx.rcs.map (fun rc => { rc with values := [] }),
      valuesLen := 0,
      writes := wctx.writes ++ [(0, wctx.rcs)] }

/-- The `areEqualColumns` test at the top of `pipeSortWriteContext.writeRow`:
the accumulator has the column count of the row's source block and the names
of its non-key columns match position-wise (the source loop checks exactly the
`otherColumns` names). -/
def writeRowAreEqualColumns (wctx : pipeSortWriteContext) (byFields : List bySortField)
    (b : sortBlock) : Bool :=
  decide (wctx.rcs.length = byFields.length + b.otherColumns.length) &&
    decide (((wctx.rcs.drop byFields.length).map (fun rc => rc.name)) =
      b.otherColumns.map (fun c => c.name))

/-- The values appended to the accumulator for one row: the key-column values
followed by the non-key-column values, as read by the two loops of
`writeRow`. -/
def writeRowRowVals (byFields : List bySortField) (b : sortBlock) (rr : sortRowRef) : List String :=
  (List.range byFields.length).map
      (fun i => ((b.byColumns.getD i default).c.getValueAtRow b.br rr.rowIdx)) ++
    b.otherColumns.map (fun c => c.getValueAtRow b.br rr.rowIdx)

/-- `pipeSortWriteContext.writeRow` from `pipe_sort.go`: on a column-shape
change flush the accumulated batch and rebuild the accumulator with the names
`byFields ++ otherColumns` of the current source block; append the row's
values; flush when the accumulated byte length reaches 1,000,000. -/
def pipeSortWriteContext.writeRow (wctx : pipeSortWriteContext)
    (shard : pipeSortProcessorShard) (rowIdx : Nat) : pipeSortWriteContext :=
  let rr := shard.rowRefs.getD rowIdx default
  let b := shard.blocks.getD rr.blockIdx default
  let byFields := shard.ps.byFields
  let wctx1 :=
    if writeRowAreEqualColumns wctx byFields b then wctx
    else
      -- send the current block to ppBase and construct a block with new set of columns
      let w := wctx.flush
      { w with rcs := byFields.map (fun bf => { name := bf.name, values := [] })
                        ++ b.otherColumns.map (fun c => { name := c.name, values := [] }) }
  let rowVals := writeRowRowVals byFields b rr
  let wctx2 : pipeSortWriteContext :=
    { wctx1 with
      rcs := List.zipWith (fun rc v => { rc with values := rc.values ++ [v] }) wctx1.rcs rowVals,
      valuesLen := wctx1.valuesLen + (rowVals.map String.utf8ByteSize).sum }
  if wctx2.valuesLen ≥ 1000000 then wctx2.flush else wctx2

/-- Swap of two positions of the heap slice (`Swap` of
`pipeSortProcessorShardsHeap`). -/
def listSwap (a : List Nat) (i j : Nat) : List Nat :=
  (a.set i (a.getD j 0)).set j (a.getD i 0)

/-- The sift-down loop of Go `container/heap.down` over a slice of shard
indices; `cmp` is `Less` on shard indices (elements of the slice).  The fuel
bounds the walk down the tree; every caller passes the slice length, which
always suffices since the position strictly increases.  Returns the slice and
the final position. -/
def heapDownLoop (cmp : Nat → Nat → Bool) : Nat → List Nat → Nat → Nat → List Nat × Nat
  | 0, a, i, _ => (a, i)
  | Nat.succ fuel, a, i, n =>
    let j1 := 2 * i + 1
    if j1 ≥ n then (a, i)
    else
      let j2 := 2 * i + 2
      let j := if j2 < n ∧ cmp (a.getD j2 0) (a.getD j1 0) then j2 else j1
      if !cmp (a.getD j 0) (a.getD i 0) then (a, i)
      else heapDownLoop cmp fuel (listSwap a i j) j n

/-- Go `container/heap.down`: sift position `i0` down within the first `n`
entries; reports whether the position moved. -/
def heapDown (cmp : Nat → Nat → Bool) (a : List Nat) (i0 n : Nat) : List Nat × Bool :=
  let r := heapDownLoop cmp n a i0 n
  (r.1, decide (r.2 > i0))

/-- The loop of Go `container/heap.Init`: sift down positions `n/2 - 1` down
to `0` (the argument counts how many leading positions remain). -/
def heapInitLoop (cmp : Nat → Nat → Bool) : Nat → List Nat → List Nat
  | 0, a => a
  | Nat.succ k, a => heapInitLoop cmp k (heapDown cmp a k a.length).1

/-- Go `container/heap.Init`. -/
def heapInit (cmp : Nat → Nat → Bool) (a : List Nat) : List Nat :=
  heapInitLoop cmp (a.length / 2) a

/-- Go `container/heap.Pop` with the popped value discarded, as in the merge
loop of `flush`: swap the root with the last entry, sift down within the
shortened prefix, drop the last entry. -/
def heapPopDiscard (cmp : Nat → Nat → Bool) (a : List Nat) : List Nat :=
  let n := a.length - 1
  let a' := (heapDown cmp (listSwap a 0 n) 0 n).1
  a'.take n

/-- Go `container/heap.Fix(h, 0)`: sift down from the root; the complementary
`up(h, 0)` sift is a no-op at index 0 (Go computes the parent `(0-1)/2 = 0`
and stops immediately), so only the down phase is modelled. -/
def heapFixZero (cmp : Nat → Nat → Bool) (a : List Nat) : List Nat :=
  (heapDown cmp a 0 a.length).1

/-- `pipeSortProcessorShardsHeap.Less` from `pipe_sort.go`, reformulated over
shard indices into the current shard array: compare the two shards' merge
heads. -/
def shardHeapLess (shards : List pipeSortProcessorShard) (ia ib : Nat) : Bool :=
  let sa := shards.getD ia default
  let sb := shards.getD ib default
  sortBlockLess sa sa.rowRefNext sb sb.rowRefNext

/-- The merge loop of `pipeSortProcessor.flush` (`for len(sh) > 1`).  State:
the shard array, the heap `sh` of shard indices, the deferred runner-up
`shardNext` (a shard index; `none` models the nil pointer) and the write
context.  The returned flag is `true` when the loop exited by its condition
and `false` on an early cancellation return (which skips the final drain and
flush).  The fuel only bounds the recursion: every iteration consumes one row,
so the total row count suffices. -/
def mergeLoop (stopped : Bool) :
    Nat → List pipeSortProcessorShard → List Nat → Option Nat → pipeSortWriteContext →
    List pipeSortProcessorShard × List Nat × pipeSortWriteContext × Bool
  | 0, shards, sh, _, w => (shards, sh, w, false)
  | Nat.succ fuel, shards, sh, shardNext, w =>
    if sh.length ≤ 1 then (shards, sh, w, true)
    else
      let si := sh.getD 0 0
      let shard := shards.getD si default
      let w := w.writeRow shard shard.rowRefNext
      let shard := { shard with rowRefNext := shard.rowRefNext + 1 }
      let shards := shards.set si shard
      if shard.rowRefNext ≥ shard.rowRefs.length then
        let sh := heapPopDiscard (shardHeapLess shards) sh
        if stopped then (shards, sh, w, false)
        else mergeLoop stopped fuel shards sh none w
      else
        let snIdx :=
          match shardNext with
          | some x => x
          | none =>
            let c1 := sh.getD 1 0
            if 2 < sh.length ∧ shardHeapLess shards (sh.getD 2 0) c1 then sh.getD 2 0 else c1
        if shardHeapLess shards snIdx si then
          let sh := heapFixZero (shardHeapLess shards) sh
          if stopped then (shards, sh, w, false)
          else mergeLoop stopped fuel shards sh none w
        else
          mergeLoop stopped fuel shards sh (some snIdx) w

/-- Modelled from the spec: `quoteTokenIfNeeded` (lexer.go, not under src/).
Per §6, field names are quoted when they contain non-identifier characters;
identifier characters are modelled as ASCII letters, digits and underscore. -/
def quoteTokenIfNeeded (s : String) : String :=
  if s ≠ "" ∧ s.data.all (fun c => c.isAlphanum ∨ c = '_') then s else goQuote s

/-- `bySortField.String` from `pipe_sort.go`. -/
def bySortFieldString (bf : bySortField) : String :=
  quoteTokenIfNeeded bf.name ++ (if bf.isDesc then " desc" else "")

/-- `pipeSort.String` from `pipe_sort.go` (named `pipeSortString` to avoid
shadowing the `String` type). -/
def pipeSortString (ps : pipeSort) : String :=
  let s := "sort"
  let s :=
    if ps.byFields.length > 0 then
      s ++ " by (" ++ String.intercalate ", " (ps.byFields.map bySortFieldString) ++ ")"
    else s
  if ps.isDesc then s ++ " desc" else s

/-- The diagnostic produced by `pipeSortProcessor.flush` on budget exhaustion
(`fmt.Errorf`); `Int.div` models Go's truncating `int64` division. -/
def pipeSortProcessor.flushErrorMessage (psp : pipeSortProcessor) : String :=
  "cannot calculate [" ++ pipeSortString psp.ps ++ "], since it requires more than " ++
    toString (Int.div psp.maxStateSize (2 ^ 20)) ++ "MB of memory"

/-- The error result of `pipeSortProcessor.flush`: the only `return` with a
non-nil error is the budget check at function entry; every other path returns
nil. -/
def pipeSortProcessor.flushError (psp : pipeSortProcessor) : Option String :=
  if psp.stateSizeBudget ≤ 0 then some psp.flushErrorMessage else none

/-- The downstream writes performed by `pipeSortProcessor.flush`: after the
entry checks, sort every shard, build the min-heap of non-empty shards, run
the merge loop, drain the last shard and flush the write context.  The
parallel per-shard sorts join on a wait group before the merge and are
modelled as a map. -/
def pipeSortProcessor.flushWrites (psp : pipeSortProcessor) : List (Nat × List resultColumn) :=
  if psp.stateSizeBudget ≤ 0 then []
  else if psp.stopped then []
  else
    let shards := psp.shards.map pipeSortProcessorShard.sortShard
    -- second cancellation check after the sort phase (the flag is static in
    -- the model, so this mirrors the source without further effect)
    if psp.stopped then []
    else
      let sh0 := (List.range shards.length).filter
        (fun i => 0 < (shards.getD i default).rowRefs.length)
      if sh0.length = 0 then []
      else
        let sh := heapInit (shardHeapLess shards) sh0
        let fuel := (shards.map (fun s => s.rowRefs.length)).sum + 1
        let r := mergeLoop psp.stopped fuel shards sh none
          { rcs := [], valuesLen := 0, writes := [] }
        let shards := r.1
        let sh := r.2.1
        let w := r.2.2.1
        let finished := r.2.2.2
        if !finished then w.writes
        else
          let w :=
            if sh.length = 1 then
              let si := sh.getD 0 0
              let shard := shards.getD si default
              (List.range (shard.rowRefs.length - shard.rowRefNext)).foldl
                (fun w k => w.writeRow shard (shard.rowRefNext + k)) w
            else w
          w.flush.writes

/-- `pipeSortProcessor.flush` from `pipe_sort.go`, as the pair of its error
result and the downstream writes it performs. -/
def pipeSortProcessor.flush (psp : pipeSortProcessor) :
    Option String × List (Nat × List resultColumn) :=
  (psp.flushError, psp.flushWrites)


/-- The `sort by (n)` configuration (ascending) of scenario S3. -/
def s3Ps : pipeSort := { byFields := [{ name := "n", isDesc := false }], isDesc := false }

/-- The S3 input block: three rows with `n` = "9", "foo", "2". -/
def s3Block : blockResult :=
  { timestamps := [0, 0, 0],
    columns := [{ name := "n", isConst := false, isTime := false,
                  encodedValues := ["9", "foo", "2"] }] }

/-- The S3 processor after ingesting the input block on a single worker. -/
def s3Psp : pipeSortProcessor :=
  (newPipeProcessor s3Ps 1 100000000 1000000).writeBlock 1000000 0 s3Block

/-- A const key column holding "b", for the witness of the const fast path. -/
def c3BlockA : sortBlock :=
  { br := { timestamps := [0], columns := [] },
    byColumns := [{ c := { name := "c", isConst := true, isTime := false, encodedValues := ["b"] },
                    i64Values := [0], f64Values := [F64.nan] }],
    otherColumns := [] }

/-- A const key column holding "a", for the witness of the const fast path. -/
def c3BlockB : sortBlock :=
  { br := { timestamps := [0], columns := [] },
    byColumns := [{ c := { name := "c", isConst := true, isTime := false, encodedValues := ["a"] },
                    i64Values := [0], f64Values := [F64.nan] }],
    otherColumns := [] }

/-- The `sort by (n)` ascending configuration of the four-shard merge
scenario. -/
def c1Ps : pipeSort := { byFields := [{ name := "n", isDesc := false }], isDesc := false }

/-- A one-row block with the given value in column `n`. -/
def c1Block (v : String) : blockResult :=
  { timestamps := [0],
    columns := [{ name := "n", isConst := false, isTime := false, encodedValues := [v] }] }

/-- Four workers ingest one row each: "1.0", "1", "1.0", "0.0.0.1".  The
values "1" and "0.0.0.1" both pre-parse to the non-zero int64 1 (the latter
through `tryParseIPv4`), while "1.0" pre-parses to the int64 zero sentinel and
the float 1.0; "0.0.0.1" has a NaN float.  Consequently `sortBlockLess` is not
a strict weak order on these rows ("0.0.0.1" ~ "1" ~ "1.0" under
incomparability yet "0.0.0.1" < "1.0" at the string tier), which the k-way
merge heap does not tolerate. -/
def c1Psp : pipeSortProcessor :=
  ((((newPipeProcessor c1Ps 4 100000000 1000000).writeBlock 1000000 0 (c1Block "1.0")).writeBlock
      1000000 1 (c1Block "1")).writeBlock 1000000 2 (c1Block "1.0")).writeBlock
      1000000 3 (c1Block "0.0.0.1")

/-- The configuration of the C8 scenarios (`sort`, no explicit keys). -/
def c8Ps : pipeSort := { byFields := [], isDesc := false }

/-- A processor constructed with an allowed-memory figure so small that the
initial global budget `int64(0.2 * allowed) - workers * chunk` is already
negative. -/
def c8TinyPsp : pipeSortProcessor := newPipeProcessor c8Ps 1 5 40000

/-- A cancelled processor with a positive budget, for the C5 witness. -/
def c5StoppedPsp : pipeSortProcessor :=
  { newPipeProcessor { byFields := [], isDesc := false } 1 100000000 1000000 with stopped := true }

/-- The budget-stealing call performed by `pipeSortProcessor.writeBlock` for
worker `workerID` (same arguments, including the fuel choice). -/
def writeBlockSteal (chunk : Int) (psp : pipeSortProcessor) (workerID : Nat) :
    Int × Int × Bool × Bool :=
  stealLoop chunk ((psp.shards.getD workerID default).stateSizeBudget.natAbs + 1)
    psp.stateSizeBudget (psp.shards.getD workerID default).stateSizeBudget

/-- A processor whose worker-0 shard budget has been driven negative, for the
C4 witness. -/
def c4Psp : pipeSortProcessor :=
  { newPipeProcessor { byFields := [], isDesc := false } 1 500 10 with
    shards := [{ ps := { byFields := [], isDesc := false }, blocks := [], rowRefs := [],
                 rowRefNext := 0, stateSizeBudget := -25 }] }

/-- The source block a `writeRow` call reads its row from. -/
def writeRowBlock (shard : pipeSortProcessorShard) (rowIdx : Nat) : sortBlock :=
  shard.blocks.getD (shard.rowRefs.getD rowIdx default).blockIdx default

/-- The byte length `writeRow` adds to `valuesLen` for one row. -/
def writeRowAddedLen (shard : pipeSortProcessorShard) (rowIdx : Nat) : Nat :=
  ((writeRowRowVals shard.ps.byFields (writeRowBlock shard rowIdx)
    (shard.rowRefs.getD rowIdx default)).map String.utf8ByteSize).sum

/-- A shard with one two-row block, key column `n` and other column `m`, for
the C7 witness. -/
def c7Shard : pipeSortProcessorShard :=
  ({ ps := { byFields := [{ name := "n", isDesc := false }], isDesc := false },
     blocks := [], rowRefs := [], rowRefNext := 0,
     stateSizeBudget := 0 } : pipeSortProcessorShard).writeBlock
    { timestamps := [0, 0],
      columns := [{ name := "n", isConst := false, isTime := false, encodedValues := ["5", "7"] },
                  { name := "m", isConst := false, isTime := false, encodedValues := ["x", "y"] }] }

/-- The write context after the first row of the C7 witness scenario. -/
def c7Wctx : pipeSortWriteContext :=
  ({ rcs := [], valuesLen := 0, writes := [] } : pipeSortWriteContext).writeRow c7Shard 0

/-- The number of `byColumns` entries `writeBlock` builds for a block: one in
all-columns mode, else one per key. -/
def pipeSortKeyCount (ps : pipeSort) : Nat :=
  if ps.byFields.length = 0 then 1 else ps.byFields.length

/-- Well-formedness of an upstream block column (spec §3/§6): a time column is
not const; a const column carries exactly one encoded value; a plain column
carries one encoded value per row. -/
def blockResultColumnWF (rowCount : Nat) (c : blockResultColumn) : Prop :=
  (c.isTime = true → c.isConst = false) ∧
  (c.isConst = true → c.encodedValues.length = 1) ∧
  (c.isConst = false → c.isTime = false → c.encodedValues.length = rowCount)

/-- Well-formedness of an upstream block: every column is well formed for the
block's row count. -/
def blockResultWF (br : blockResult) : Prop :=
  ∀ c ∈ br.columns, blockResultColumnWF br.timestamps.length c

/-- Well-formedness of one pre-parsed key column (spec §3 invariants): time
columns are not const (their side arrays may be empty); const columns carry
one-element arrays; plain columns carry one entry per row. -/
def sortBlockByColumnWF (rowCount : Nat) (bc : sortBlockByColumn) : Prop :=
  (bc.c.isTime = true → bc.c.isConst = false) ∧
  (bc.c.isTime = false → bc.c.isConst = true →
    bc.c.encodedValues.length = 1 ∧ bc.i64Values.length = 1 ∧ bc.f64Values.length = 1) ∧
  (bc.c.isTime = false → bc.c.isConst = false →
    bc.c.encodedValues.length = rowCount ∧
    bc.i64Values.length = rowCount ∧ bc.f64Values.length = rowCount)

/-- Well-formedness of an ingested sort block: the key-column count matches
the configuration and every key column is well formed. -/
def sortBlockWF (keyCount : Nat) (sb : sortBlock) : Prop :=
  sb.byColumns.length = keyCount ∧
  ∀ bc ∈ sb.byColumns, sortBlockByColumnWF sb.br.timestamps.length bc

/-- Well-formedness of a shard (spec §3 invariants): every block is well
formed and every row reference is in range. -/
def shardWF (shard : pipeSortProcessorShard) : Prop :=
  (∀ sb ∈ shard.blocks, sortBlockWF (pipeSortKeyCount shard.ps) sb) ∧
  (∀ rr ∈ shard.rowRefs, rr.blockIdx < shard.blocks.length ∧
    rr.rowIdx < (shard.blocks.getD rr.blockIdx default).br.timestamps.length)

/-- A well-formed two-row shard for the C10 witness. -/
def c10Shard : pipeSortProcessorShard :=
  ({ ps := { byFields := [{ name := "n", isDesc := false }], isDesc := false },
     blocks := [], rowRefs := [], rowRefNext := 0,
     stateSizeBudget := 0 } : pipeSortProcessorShard).writeBlock
    { timestamps := [0, 0],
      columns := [{ name := "n", isConst := false, isTime := false, encodedValues := ["9", "2"] }] }

/-- Checked variant of the effective-direction computation: `none` when
`byFields[idx]` would be an out-of-range access (only attempted when the key
list is non-empty, as in the source's short-circuit `len(byFields) > 0 &&
byFields[idx].isDesc`). -/
def effectiveDescChecked (ps : pipeSort) (idx : Nat) : Option Bool := do
  let d0 ← if ps.byFields.length > 0 then (ps.byFields.get? idx).map (fun bf => bf.isDesc)
    else some false
  pure (if ps.isDesc then !d0 else d0)

/-- Checked variant of one comparator step: `none` when any array access is
out of bounds, `some r` with the step result otherwise.  The structure and
evaluation order mirror `sortBlockCompareAt`. -/
def sortBlockCompareAtChecked (ps : pipeSort) (bA : sortBlock) (rrA : sortRowRef)
    (bB : sortBlock) (rrB : sortRowRef) (idx : Nat) : Option (Option Bool) := do
  let cA ← bA.byColumns.get? idx
  let cB ← bB.byColumns.get? idx
  let isDesc ← effectiveDescChecked ps idx
  if cA.c.isConst && cB.c.isConst then
    let ccA ← cA.c.encodedValues.get? 0
    let ccB ← cB.c.encodedValues.get? 0
    if ccA = ccB then pure none else pure (some (goStringLt ccA ccB))
  else if cA.c.isTime && cB.c.isTime then
    let tA ← bA.br.timestamps.get? rrA.rowIdx
    let tB ← bB.br.timestamps.get? rrB.rowIdx
    if tA = tB then pure none
    else if isDesc then pure (some (decide (tB < tA))) else pure (some (decide (tA < tB)))
  else if cA.c.isTime then pure (some true)
  else if cB.c.isTime then pure (some false)
  else do
    let uA ← cA.getI64ValueAtRowChecked rrA.rowIdx
    let uB ← cB.getI64ValueAtRowChecked rrB.rowIdx
    if uA ≠ 0 ∧ uB ≠ 0 then
      if uA = uB then pure none
      else if isDesc then pure (some (decide (uB < uA))) else pure (some (decide (uA < uB)))
    else do
      let fA ← cA.getF64ValueAtRowChecked rrA.rowIdx
      let fB ← cB.getF64ValueAtRowChecked rrB.rowIdx
      if !fA.isNaN && !fB.isNaN then
        if fA.eqv fB then pure none
        else if isDesc then pure (some (F64.lt fB fA)) else pure (some (F64.lt fA fB))
      else do
        let sA ← cA.c.getValueAtRowChecked bA.br rrA.rowIdx
        let sB ← cB.c.getValueAtRowChecked bB.br rrB.rowIdx
        if sA = sB then pure none
        else if isDesc then pure (some (goStringLt sB sA)) else pure (some (goStringLt sA sB))

/-- Checked variant of the key loop: propagates an out-of-bounds access. -/
def sortBlockLessLoopChecked (ps : pipeSort) (bA : sortBlock) (rrA : sortRowRef)
    (bB : sortBlock) (rrB : sortRowRef) : List Nat → Option Bool
  | [] => some false
  | idx :: rest =>
    match sortBlockCompareAtChecked ps bA rrA bB rrB idx with
    | none => none
    | some (some r) => some r
    | some none => sortBlockLessLoopChecked ps bA rrA bB rrB rest

/-- Checked variant of `sortBlockLess`: `none` when any of the row-reference,
block or side-array accesses would be out of bounds. -/
def sortBlockLessChecked (shardA : pipeSortProcessorShard) (rowIdxA : Nat)
    (shardB : pipeSortProcessorShard) (rowIdxB : Nat) : Option Bool := do
  let rrA ← shardA.rowRefs.get? rowIdxA
  let rrB ← shardB.rowRefs.get? rowIdxB
  let bA ← shardA.blocks.get? rrA.blockIdx
  let bB ← shardB.blocks.get? rrB.blockIdx
  sortBlockLessLoopChecked shardA.ps bA rrA bB rrB (List.range bA.byColumns.length)

/-- A well-formed shard whose key column is the `_time` column, for the C9
witness: its numeric side arrays are nil. -/
def c9Shard : pipeSortProcessorShard :=
  ({ ps := { byFields := [{ name := "_time", isDesc := false }], isDesc := false },
     blocks := [], rowRefs := [], rowRefNext := 0,
     stateSizeBudget := 0 } : pipeSortProcessorShard).writeBlock
    { timestamps := [100, 50],
      columns := [{ name := "_time", isConst := false, isTime := true, encodedValues := [] }] }

lemma isDecDigits_head_ne_minus {l : List Char} (h : isDecDigits l = true) :
    l.headD ' ' ≠ '-' := by
  cases l with
  | nil => simp [isDecDigits] at h
  | cons a t =>
    simp only [isDecDigits, List.isEmpty_cons, Bool.not_false, Bool.true_and,
      List.all_cons, Bool.and_eq_true] at h
    intro hEq
    simp only [List.headD_cons] at hEq
    rw [hEq] at h
    exact absurd h.1 (by decide)

lemma isDecDigits_ne_nil {l : List Char} (h : isDecDigits l = true) : l ≠ [] := by
  cases l with
  | nil => simp [isDecDigits] at h
  | cons a t => simp

lemma tryParseUint64_of_digits {s : String} (hd : isDecDigits s.data = true)
    (hb : decDigitsVal s.data < 2 ^ 64) :
    tryParseUint64 s = some (decDigitsVal s.data) := by
  unfold tryParseUint64
  rw [if_pos ⟨hd, hb⟩]

/-- C6: `tryParseInt64` returns not-ok for the empty string; every accepted
string is an optional leading '-' followed by an unsigned decimal number and
every accepted value lies in the asymmetric signed 64-bit range
`[-2^63, 2^63-1]`; conversely every such literal whose value lies in the range
is accepted with its exact value; in particular `"-9223372036854775808"`
parses successfully while `"9223372036854775808"` is rejected. -/
theorem tryParseInt64_spec :
    tryParseInt64 "" = none ∧
    (∀ s v, tryParseInt64 s = some v → -(2 ^ 63) ≤ v ∧ v ≤ 2 ^ 63 - 1) ∧
    (∀ s v, tryParseInt64 s = some v →
      (s.data.headD ' ' = '-' ∧ isDecDigits s.data.tail = true ∧
        v = -(decDigitsVal s.data.tail : Int)) ∨
      (isDecDigits s.data = true ∧ v = (decDigitsVal s.data : Int))) ∧
    (∀ s, isDecDigits s.data = true → decDigitsVal s.data ≤ 2 ^ 63 - 1 →
      tryParseInt64 s = some (decDigitsVal s.data)) ∧
    (∀ s, isDecDigits s.data = true → decDigitsVal s.data ≤ 2 ^ 63 →
      tryParseInt64 ("-" ++ s) = some (-(decDigitsVal s.data : Int))) ∧
    tryParseInt64 "-9223372036854775808" = some (-(2 ^ 63)) ∧
    tryParseInt64 "9223372036854775808" = none := by
  refine ⟨by decide, ?_, ?_, ?_, ?_, by decide, by decide⟩
  · intro s v h
    unfold tryParseInt64 at h
    by_cases h0 : s.length = 0
    · simp [h0] at h
    rw [if_neg h0] at h
    simp only [] at h
    by_cases hm : s.data.headD ' ' = '-'
    · rw [if_pos hm] at h
      cases hu : tryParseUint64 (String.mk s.data.tail) with
      | none => rw [hu] at h; simp at h
      | some u =>
        rw [hu] at h
        simp only [decide_eq_true_eq, hm, decide_True, Bool.not_true,
          Bool.false_eq_true, if_false] at h
        by_cases hb : u > 2 ^ 63
        · rw [if_pos hb] at h; simp at h
        · rw [if_neg hb] at h
          simp only [Option.some.injEq] at h
          subst h
          omega
    · rw [if_neg hm] at h
      cases hu : tryParseUint64 s with
      | none => rw [hu] at h; simp at h
      | some u =>
        rw [hu] at h
        simp only [hm, decide_False, Bool.not_false, if_true] at h
        by_cases hb : u > 2 ^ 63 - 1
        · rw [if_pos hb] at h; simp at h
        · rw [if_neg hb] at h
          simp only [Option.some.injEq] at h
          subst h
          omega
  · intro s v h
    unfold tryParseInt64 at h
    by_cases h0 : s.length = 0
    · simp [h0] at h
    rw [if_neg h0] at h
    simp only [] at h
    by_cases hm : s.data.headD ' ' = '-'
    · rw [if_pos hm] at h
      cases hu : tryParseUint64 (String.mk s.data.tail) with
      | none => rw [hu] at h; simp at h
      | some u =>
        rw [hu] at h
        simp only [hm, decide_True, Bool.not_true, Bool.false_eq_true, if_false] at h
        by_cases hb : u > 2 ^ 63
        · rw [if_pos hb] at h; simp at h
        · rw [if_neg hb] at h
          simp only [Option.some.injEq] at h
          left
          unfold tryParseUint64 at hu
          by_cases hd : isDecDigits (String.mk s.data.tail).data = true ∧
              decDigitsVal (String.mk s.data.tail).data < 2 ^ 64
          · rw [if_pos hd] at hu
            simp only [Option.some.injEq] at hu
            refine ⟨hm, ?_, ?_⟩
            · exact hd.1
            · rw [← h, ← hu]
          · rw [if_neg hd] at hu; simp at hu
    · rw [if_neg hm] at h
      cases hu : tryParseUint64 s with
      | none => rw [hu] at h; simp at h
      | some u =>
        rw [hu] at h
        simp only [hm, decide_False, Bool.not_false, if_true] at h
        by_cases hb : u > 2 ^ 63 - 1
        · rw [if_pos hb] at h; simp at h
        · rw [if_neg hb] at h
          simp only [Option.some.injEq] at h
          right
          unfold tryParseUint64 at hu
          by_cases hd : isDecDigits s.data = true ∧ decDigitsVal s.data < 2 ^ 64
          · rw [if_pos hd] at hu
            simp only [Option.some.injEq] at hu
            exact ⟨hd.1, by rw [← h, ← hu]⟩
          · rw [if_neg hd] at hu; simp at hu
  · intro s hd hb
    have hne : ¬ s.length = 0 := by
      have := isDecDigits_ne_nil hd
      simp only [String.length]
      intro hlen
      exact this (List.length_eq_zero.mp hlen)
    unfold tryParseInt64
    rw [if_neg hne]
    simp only []
    have hm : ¬ (s.data.headD ' ' = '-') := isDecDigits_head_ne_minus hd
    rw [if_neg hm]
    rw [tryParseUint64_of_digits hd (by omega)]
    simp only [hm, decide_False, Bool.not_false, if_true]
    rw [if_neg (by omega)]
    simp
  · intro s hd hb
    have hdata : ("-" ++ s).data = '-' :: s.data := by
      simp [String.data_append]
    have hne : ¬ ("-" ++ s).length = 0 := by
      rw [String.length_append]
      have h1 : ("-" : String).length = 1 := rfl
      omega
    unfold tryParseInt64
    rw [if_neg hne]
    simp only [hdata]
    have hm : (('-' : Char) :: s.data).headD ' ' = '-' := rfl
    rw [if_pos hm]
    simp only [List.tail_cons]
    have hmk : tryParseUint64 (String.mk s.data) = some (decDigitsVal s.data) := by
      unfold tryParseUint64
      simp only [show (String.mk s.data).data = s.data from rfl]
      rw [if_pos ⟨hd, by omega⟩]
    rw [hmk]
    simp only [hm, decide_True, Bool.not_true, Bool.false_eq_true, if_false]
    rw [if_neg (by omega)]

/-- Witness for `tryParseInt64_spec`: its completeness clauses applied at the
concrete literals `"7"` and `"-7"`. -/
theorem tryParseInt64_spec_witness :
    tryParseInt64 "7" = some 7 ∧ tryParseInt64 "-7" = some (-7) := by
  constructor
  · have h := tryParseInt64_spec.2.2.2.1 "7" (by decide) (by decide)
    simpa using h
  · have h := tryParseInt64_spec.2.2.2.2.1 "7" (by decide) (by decide)
    simpa using h

/-- C2: for a key column that is neither const-on-both-sides nor time on
either side, the comparator decides by int64 order exactly when both
pre-parsed int64 values are non-zero, otherwise by float64 order exactly when
neither pre-parsed float64 value is NaN, otherwise by byte-lexicographic
string order, with equality at each tier falling through to the next key
(`none`); and scenario S3 (`sort by (n)` over rows "9", "foo", "2") emits the
order "2", "9", "foo". -/
theorem sortBlockCompareAt_numeric_tiers (ps : pipeSort) (bA : sortBlock) (rrA : sortRowRef)
    (bB : sortBlock) (rrB : sortRowRef) (idx : Nat)
    (hconst : ¬((bA.byColumns.getD idx default).c.isConst = true ∧
      (bB.byColumns.getD idx default).c.isConst = true))
    (htA : (bA.byColumns.getD idx default).c.isTime = false)
    (htB : (bB.byColumns.getD idx default).c.isTime = false) :
    (sortBlockCompareAt ps bA rrA bB rrB idx =
      (let cA := bA.byColumns.getD idx default
       let cB := bB.byColumns.getD idx default
       let isDesc := effectiveDesc ps idx
       let uA := cA.getI64ValueAtRow rrA.rowIdx
       let uB := cB.getI64ValueAtRow rrB.rowIdx
       if uA ≠ 0 ∧ uB ≠ 0 then
         if uA = uB then none
         else if isDesc then some (decide (uB < uA)) else some (decide (uA < uB))
       else
         let fA := cA.getF64ValueAtRow rrA.rowIdx
         let fB := cB.getF64ValueAtRow rrB.rowIdx
         if !fA.isNaN && !fB.isNaN then
           if fA.eqv fB then none
           else if isDesc then some (F64.lt fB fA) else some (F64.lt fA fB)
         else
           let sA := cA.c.getValueAtRow bA.br rrA.rowIdx
           let sB := cB.c.getValueAtRow bB.br rrB.rowIdx
           if sA = sB then none
           else if isDesc then some (goStringLt sB sA) else some (goStringLt sA sB))) ∧
    s3Psp.flush = (none, [(0, [{ name := "n", values := ["2", "9", "foo"] }])]) := by
  constructor
  · cases hA : (bA.byColumns.getD idx default).c.isConst with
    | false => simp only [sortBlockCompareAt, hA, htA, htB, Bool.false_and, Bool.and_false,
        Bool.true_and, Bool.and_self, Bool.false_eq_true, if_false]
    | true =>
      cases hB : (bB.byColumns.getD idx default).c.isConst with
      | false => simp only [sortBlockCompareAt, hA, hB, htA, htB, Bool.false_and, Bool.and_false,
          Bool.true_and, Bool.and_self, Bool.false_eq_true, if_false]
      | true => exact absurd ⟨hA, hB⟩ hconst
  · decide

/-- Witness for `sortBlockCompareAt_numeric_tiers`: applied to the rows "9"
and "foo" of the S3 block (the int tier rejects "foo" via the zero sentinel,
the float tier rejects "foo" via NaN, the string tier decides "9" < "foo"). -/
theorem sortBlockCompareAt_numeric_tiers_witness :
    sortBlockCompareAt s3Ps ((s3Psp.shards.getD 0 default).blocks.getD 0 default) ⟨0, 0⟩
      ((s3Psp.shards.getD 0 default).blocks.getD 0 default) ⟨0, 1⟩ 0 = some true :=
  ((sortBlockCompareAt_numeric_tiers s3Ps
      ((s3Psp.shards.getD 0 default).blocks.getD 0 default) ⟨0, 0⟩
      ((s3Psp.shards.getD 0 default).blocks.getD 0 default) ⟨0, 1⟩ 0
      (by decide) (by decide) (by decide)).1).trans (by decide)

/-- C3: when the key column is const on both sides, the comparator compares
`encodedValues[0]` as strings in ascending byte order, falling through to the
next key only on equality, and the result is independent of the sort
configuration (in particular of the per-key and global `desc` flags). -/
theorem sortBlockCompareAt_const_fast_path (ps : pipeSort) (bA : sortBlock) (rrA : sortRowRef)
    (bB : sortBlock) (rrB : sortRowRef) (idx : Nat)
    (hA : (bA.byColumns.getD idx default).c.isConst = true)
    (hB : (bB.byColumns.getD idx default).c.isConst = true) :
    (sortBlockCompareAt ps bA rrA bB rrB idx =
      (let ccA := (bA.byColumns.getD idx default).c.encodedValues.getD 0 ""
       let ccB := (bB.byColumns.getD idx default).c.encodedValues.getD 0 ""
       if ccA = ccB then none else some (goStringLt ccA ccB))) ∧
    (∀ ps' : pipeSort, sortBlockCompareAt ps bA rrA bB rrB idx =
      sortBlockCompareAt ps' bA rrA bB rrB idx) := by
  have key : ∀ q : pipeSort, sortBlockCompareAt q bA rrA bB rrB idx =
      (let ccA := (bA.byColumns.getD idx default).c.encodedValues.getD 0 ""
       let ccB := (bB.byColumns.getD idx default).c.encodedValues.getD 0 ""
       if ccA = ccB then none else some (goStringLt ccA ccB)) := by
    intro q
    simp only [sortBlockCompareAt, hA, hB, Bool.and_self, if_true]
  exact ⟨key ps, fun ps' => (key ps).trans (key ps').symm⟩

/-- Witness for `sortBlockCompareAt_const_fast_path`: under `sort by (c desc)`
the const values "b" and "a" still compare in ascending string order
("b" < "a" gives `some false`), i.e. the per-key `desc` flag is ignored. -/
theorem sortBlockCompareAt_const_fast_path_witness :
    sortBlockCompareAt { byFields := [{ name := "c", isDesc := true }], isDesc := false }
      c3BlockA ⟨0, 0⟩ c3BlockB ⟨0, 0⟩ 0 = some false :=
  ((sortBlockCompareAt_const_fast_path
      { byFields := [{ name := "c", isDesc := true }], isDesc := false }
      c3BlockA ⟨0, 0⟩ c3BlockB ⟨0, 0⟩ 0 (by decide) (by decide)).1).trans (by decide)

/-- C1: evaluation of the code at the failing input.  The four-shard merge
emits the row sequence "1.0", "0.0.0.1", "1.0", "1" — a permutation of the
ingested rows, but the adjacent pair (r₀, r₁) = ("1.0", "0.0.0.1") violates
`!sortBlockLess(r₁, r₀)`: the second conjunct evaluates `sortBlockLess` at
the row emitted second (the single row of shard 3) against the row emitted
first (the single row of shard 0) and obtains `true`.  This contradicts the
claim that every adjacent emitted pair is non-inverted. -/
theorem flush_emits_inverted_adjacent_pair :
    c1Psp.flush = (none, [(0, [{ name := "n", values := ["1.0", "0.0.0.1", "1.0", "1"] }])]) ∧
    sortBlockLess ((c1Psp.shards.getD 3 default).sortShard) 0
      ((c1Psp.shards.getD 0 default).sortShard) 0 = true := by
  constructor
  · decide
  · decide

/-- Counterexample to C8 as stated: a freshly constructed processor (no rows
were ever ingested) whose flush nevertheless returns a budget-exhaustion
error, because the initial global budget is not positive.  So "flush returns
nil when no rows were ingested" does not hold unconditionally. -/
theorem flush_error_on_fresh_processor :
    (∀ shard ∈ c8TinyPsp.shards, shard.rowRefs = []) ∧ c8TinyPsp.flush.1 ≠ none := by
  constructor
  · decide
  · decide

/-- A list lookup below the length succeeds and returns the `getD` value. -/
lemma List_get?_getD {α : Type} (l : List α) (i : Nat) (d : α) (h : i < l.length) :
    l.get? i = some (l.getD i d) := by
  rw [List.getD_eq_get?, List.get?_eq_get h]
  rfl

/-- C8 (amended): a `writeBlock` call with a block containing zero timestamps
leaves the processor state entirely unchanged; and when no rows were ingested
at all AND the global budget at flush entry is positive, `flush` returns nil
and writes zero blocks downstream. -/
theorem writeBlock_empty_and_flush_no_rows :
    (∀ (chunk : Int) (psp : pipeSortProcessor) (workerID : Nat) (br : blockResult),
      br.timestamps = [] → psp.writeBlock chunk workerID br = psp) ∧
    (∀ psp : pipeSortProcessor, 0 < psp.stateSizeBudget →
      (∀ shard ∈ psp.shards, shard.rowRefs = []) → psp.flush = (none, [])) := by
  constructor
  · intro chunk psp workerID br hbr
    unfold pipeSortProcessor.writeBlock
    rw [if_pos (by rw [hbr]; rfl)]
  · intro psp hpos hempty
    unfold pipeSortProcessor.flush pipeSortProcessor.flushError pipeSortProcessor.flushWrites
    rw [if_neg (by omega), if_neg (by omega)]
    by_cases hs : psp.stopped = true
    · simp [hs]
    · simp only [Bool.not_eq_true] at hs
      simp only [hs, Bool.false_eq_true, if_false]
      have hfil : ((List.range (psp.shards.map pipeSortProcessorShard.sortShard).length).filter
          (fun i => decide
            (0 < ((psp.shards.map pipeSortProcessorShard.sortShard).getD i default).rowRefs.length))) = [] := by
        rw [List.filter_eq_nil]
        intro i hi
        rw [List.mem_range, List.length_map] at hi
        have h1 : (psp.shards.map pipeSortProcessorShard.sortShard).get? i =
            some (pipeSortProcessorShard.sortShard (psp.shards.getD i default)) := by
          rw [List.get?_map]
          rw [List_get?_getD psp.shards i default hi]
          rfl
        have h2 : (psp.shards.map pipeSortProcessorShard.sortShard).getD i default =
            pipeSortProcessorShard.sortShard (psp.shards.getD i default) := by
          rw [List.getD_eq_get?, h1]
          rfl
        rw [h2]
        have h3 : (psp.shards.getD i default) ∈ psp.shards := by
          have := List_get?_getD psp.shards i default hi
          exact List.get?_mem this
        have h4 := hempty _ h3
        have h5 : (pipeSortProcessorShard.sortShard (psp.shards.getD i default)).rowRefs = [] := by
          unfold pipeSortProcessorShard.sortShard
          rw [h4]
          rfl
        rw [h5]
        decide
      rw [hfil]
      simp

/-- Witness for `writeBlock_empty_and_flush_no_rows`: the empty block is
dropped by a fresh processor, and a fresh processor with a positive budget
flushes to `(none, [])`. -/
theorem writeBlock_empty_and_flush_no_rows_witness :
    ((newPipeProcessor c8Ps 1 100000000 1000000).writeBlock 1000000 0
        { timestamps := [], columns := [] } = newPipeProcessor c8Ps 1 100000000 1000000) ∧
    (newPipeProcessor c8Ps 1 100000000 1000000).flush = (none, []) :=
  ⟨writeBlock_empty_and_flush_no_rows.1 1000000 (newPipeProcessor c8Ps 1 100000000 1000000) 0
      { timestamps := [], columns := [] } rfl,
    writeBlock_empty_and_flush_no_rows.2 (newPipeProcessor c8Ps 1 100000000 1000000)
      (by decide) (by decide)⟩

/-- C5: `flush` returns an error exactly when the global budget at flush entry
is not positive, and that error is the single diagnostic string
`cannot calculate [<printed sort clause>], since it requires more than
<M>MB of memory` with `M = maxStateSize / 2^20` (Go's truncating int64
division); when cancellation is observed with a still-positive global budget,
`flush` returns success with no further writes, so budget exhaustion takes
precedence over cancellation. -/
theorem flush_error_iff_budget (psp : pipeSortProcessor) :
    (psp.flush.1 =
      if psp.stateSizeBudget ≤ 0 then
        some ("cannot calculate [" ++ pipeSortString psp.ps ++ "], since it requires more than " ++
          toString (Int.div psp.maxStateSize (2 ^ 20)) ++ "MB of memory")
      else none) ∧
    (psp.stopped = true → 0 < psp.stateSizeBudget → psp.flush = (none, [])) := by
  constructor
  · rfl
  · intro hs hpos
    unfold pipeSortProcessor.flush pipeSortProcessor.flushError pipeSortProcessor.flushWrites
    rw [if_neg (by omega), if_neg (by omega)]
    simp [hs]

/-- Witness for `flush_error_iff_budget`: on a cancelled processor with a
positive budget, flush succeeds with no writes; on the tiny-memory processor
the error clause evaluates to the concrete diagnostic string. -/
theorem flush_error_iff_budget_witness :
    c5StoppedPsp.flush = (none, []) ∧
    (newPipeProcessor { byFields := [], isDesc := false } 1 5 1048576).flush.1 =
      some "cannot calculate [sort], since it requires more than 0MB of memory" :=
  ⟨(flush_error_iff_budget c5StoppedPsp).2 rfl (by decide),
    ((flush_error_iff_budget (newPipeProcessor { byFields := [], isDesc := false } 1 5 1048576)).1).trans
      (by decide)⟩

/-- Characterization of the budget-stealing loop: with a positive chunk and
enough fuel, the loop either ingests after crediting `k` chunks (every
subtraction left a non-negative remainder, the shard budget became
non-negative, and the cancel signal is not raised), or refuses after `k`
successful credits followed by one failing subtraction (the final global
value is negative, the shard budget is still negative, and the cancel signal
is raised exactly when the failing subtraction started from a non-negative
global value, i.e. `0 ≤ final + chunk`). -/
lemma stealLoop_spec (chunk : Int) (hc : 1 ≤ chunk) :
    ∀ (fuel : Nat) (g b : Int), (b < 0 → b.natAbs < fuel) → 0 < fuel →
    ∃ k : Nat,
      ((stealLoop chunk fuel g b).2.2.1 = true ∧
        (stealLoop chunk fuel g b).1 = g - k * chunk ∧
        (stealLoop chunk fuel g b).2.1 = b + k * chunk ∧
        0 ≤ (stealLoop chunk fuel g b).2.1 ∧
        (stealLoop chunk fuel g b).2.2.2 = false ∧
        (k = 0 ∨ 0 ≤ (stealLoop chunk fuel g b).1)) ∨
      ((stealLoop chunk fuel g b).2.2.1 = false ∧
        (stealLoop chunk fuel g b).1 = g - (k + 1) * chunk ∧
        (stealLoop chunk fuel g b).2.1 = b + k * chunk ∧
        (stealLoop chunk fuel g b).2.1 < 0 ∧
        (stealLoop chunk fuel g b).1 < 0 ∧
        ((stealLoop chunk fuel g b).2.2.2 = true ↔ 0 ≤ (stealLoop chunk fuel g b).1 + chunk)) := by
  intro fuel
  induction fuel with
  | zero => intro g b _ hpos; omega
  | succ n ih =>
    intro g b hfuel _
    by_cases hb : b < 0
    · by_cases hr : g - chunk < 0
      · have heq : stealLoop chunk (Nat.succ n) g b =
            (g - chunk, b, false, decide (0 ≤ g - chunk + chunk)) := by
          simp only [stealLoop]
          rw [if_pos hb, if_pos hr]
        refine ⟨0, Or.inr ?_⟩
        rw [heq]
        refine ⟨rfl, by push_cast; ring, by push_cast; ring, by exact hb, by exact hr, ?_⟩
        simp only [decide_eq_true_eq]
      · have hn1 : b + chunk < 0 → (b + chunk).natAbs < n := by
          intro h
          have := hfuel hb
          omega
        have hn2 : 0 < n := by
          have := hfuel hb
          omega
        obtain ⟨k', hk'⟩ := ih (g - chunk) (b + chunk) hn1 hn2
        have hstep : stealLoop chunk (Nat.succ n) g b = stealLoop chunk n (g - chunk) (b + chunk) := by
          simp only [stealLoop]
          rw [if_pos hb, if_neg hr]
        rw [hstep]
        rcases hk' with ⟨h1, h2, h3, h4, h5, h6⟩ | ⟨h1, h2, h3, h4, h5, h6⟩
        · refine ⟨k' + 1, Or.inl ⟨h1, ?_, ?_, h4, h5, Or.inr ?_⟩⟩
          · rw [h2]; push_cast; ring
          · rw [h3]; push_cast; ring
          · rcases h6 with h6 | h6
            · subst h6; simp only [Nat.cast_zero, zero_mul, sub_zero] at h2; omega
            · exact h6
        · refine ⟨k' + 1, Or.inr ⟨h1, ?_, ?_, h4, h5, h6⟩⟩
          · rw [h2]; push_cast; ring
          · rw [h3]; push_cast; ring
    · have heq : stealLoop chunk (Nat.succ n) g b = (g, b, true, false) := by
        simp only [stealLoop]
        rw [if_neg hb]
      refine ⟨0, Or.inl ?_⟩
      rw [heq]
      exact ⟨rfl, by push_cast; ring, by push_cast; ring, by exact not_lt.mp hb, rfl, Or.inl rfl⟩

/-- An element written by `List.set` below the length is read back by `getD`. -/
lemma List_getD_set_self {α : Type} (l : List α) (i : Nat) (x d : α) (h : i < l.length) :
    (l.set i x).getD i d = x := by
  rw [List.getD_eq_get?, List.get?_set_eq_of_lt x h]
  rfl

/-- C4: on a `writeBlock` call with a negative shard budget, the processor
repeatedly subtracts one chunk from the global budget: either it ingests
after crediting `k ≥ 1` chunks to the shard (global and shard deltas exactly
`k` chunks, both budgets non-negative afterwards, no cancellation), or some
subtraction leaves a negative global value, in which case the block is not
ingested (the shard's blocks and row references are unchanged; its budget
keeps only the chunks credited by the earlier iterations and is still
negative) and the external cancellation signal is invoked if and only if that
failing subtraction took the global budget from non-negative to negative
(`0 ≤ final + chunk`). -/
theorem writeBlock_budget_protocol (chunk : Int) (psp : pipeSortProcessor) (workerID : Nat)
    (br : blockResult) (hc : 1 ≤ chunk)
    (hneg : (psp.shards.getD workerID default).stateSizeBudget < 0)
    (hbr : br.timestamps ≠ []) :
    (∃ k : Nat, 1 ≤ k ∧
      (((writeBlockSteal chunk psp workerID).2.2.1 = true ∧
        (writeBlockSteal chunk psp workerID).1 = psp.stateSizeBudget - k * chunk ∧
        0 ≤ (writeBlockSteal chunk psp workerID).1 ∧
        (writeBlockSteal chunk psp workerID).2.1 =
          (psp.shards.getD workerID default).stateSizeBudget + k * chunk ∧
        0 ≤ (writeBlockSteal chunk psp workerID).2.1 ∧
        (writeBlockSteal chunk psp workerID).2.2.2 = false) ∨
      ((writeBlockSteal chunk psp workerID).2.2.1 = false ∧
        (writeBlockSteal chunk psp workerID).1 = psp.stateSizeBudget - k * chunk ∧
        (writeBlockSteal chunk psp workerID).1 < 0 ∧
        (writeBlockSteal chunk psp workerID).2.1 =
          (psp.shards.getD workerID default).stateSizeBudget + (k - 1 : Nat) * chunk ∧
        (writeBlockSteal chunk psp workerID).2.1 < 0 ∧
        ((writeBlockSteal chunk psp workerID).2.2.2 = true ↔
          0 ≤ (writeBlockSteal chunk psp workerID).1 + chunk)))) ∧
    ((writeBlockSteal chunk psp workerID).2.2.1 = true →
      psp.writeBlock chunk workerID br =
        { psp with
          stateSizeBudget := (writeBlockSteal chunk psp workerID).1,
          shards := psp.shards.set workerID
            (pipeSortProcessorShard.writeBlock
              { psp.shards.getD workerID default with
                stateSizeBudget := (writeBlockSteal chunk psp workerID).2.1 } br) }) ∧
    ((writeBlockSteal chunk psp workerID).2.2.1 = false →
      psp.writeBlock chunk workerID br =
        { psp with
          stateSizeBudget := (writeBlockSteal chunk psp workerID).1,
          cancelCalled := psp.cancelCalled || (writeBlockSteal chunk psp workerID).2.2.2,
          shards := psp.shards.set workerID
            { psp.shards.getD workerID default with
              stateSizeBudget := (writeBlockSteal chunk psp workerID).2.1 } } ∧
      (workerID < psp.shards.length →
        ((psp.writeBlock chunk workerID br).shards.getD workerID default).blocks =
            (psp.shards.getD workerID default).blocks ∧
          ((psp.writeBlock chunk workerID br).shards.getD workerID default).rowRefs =
            (psp.shards.getD workerID default).rowRefs)) := by
  have hlen : ¬ br.timestamps.length = 0 := by
    intro h
    exact hbr (List.length_eq_zero.mp h)
  refine ⟨?_, ?_, ?_⟩
  · obtain ⟨k, hk⟩ := stealLoop_spec chunk hc
      ((psp.shards.getD workerID default).stateSizeBudget.natAbs + 1)
      psp.stateSizeBudget (psp.shards.getD workerID default).stateSizeBudget
      (by omega) (by omega)
    rcases hk with ⟨h1, h2, h3, h4, h5, h6⟩ | ⟨h1, h2, h3, h4, h5, h6⟩
    · have hk1 : 1 ≤ k := by
        rcases Nat.eq_zero_or_pos k with h | h
        · subst h
          simp only [Nat.cast_zero, zero_mul, add_zero] at h3
          unfold writeBlockSteal at *
          omega
        · exact h
      refine ⟨k, hk1, Or.inl ⟨h1, h2, ?_, h3, h4, h5⟩⟩
      · rcases h6 with h6 | h6
        · omega
        · exact h6
    · refine ⟨k + 1, by omega, Or.inr ⟨h1, ?_, h5, ?_, h4, h6⟩⟩
      · unfold writeBlockSteal
        rw [h2]
        push_cast
        ring
      · unfold writeBlockSteal
        rw [h3]
        simp
  · intro htrue
    unfold pipeSortProcessor.writeBlock
    rw [if_neg hlen]
    unfold writeBlockSteal at htrue
    simp only []
    rw [if_pos htrue]
    rfl
  · intro hfalse
    have heq : psp.writeBlock chunk workerID br =
        { psp with
          stateSizeBudget := (writeBlockSteal chunk psp workerID).1,
          cancelCalled := psp.cancelCalled || (writeBlockSteal chunk psp workerID).2.2.2,
          shards := psp.shards.set workerID
            { psp.shards.getD workerID default with
              stateSizeBudget := (writeBlockSteal chunk psp workerID).2.1 } } := by
      unfold pipeSortProcessor.writeBlock
      rw [if_neg hlen]
      unfold writeBlockSteal at hfalse
      simp only []
      rw [if_neg (by rw [hfalse]; exact Bool.false_ne_true)]
      rfl
    refine ⟨heq, ?_⟩
    intro hlt
    rw [heq]
    have hset : ((psp.shards.set workerID
        { psp.shards.getD workerID default with
          stateSizeBudget := (writeBlockSteal chunk psp workerID).2.1 }).getD workerID default) =
        { psp.shards.getD workerID default with
          stateSizeBudget := (writeBlockSteal chunk psp workerID).2.1 } :=
      List_getD_set_self _ _ _ _ hlt
    rw [hset]
    exact ⟨rfl, rfl⟩

/-- Witness for `writeBlock_budget_protocol`: with chunk 10, global budget 90
and shard budget −25, the call credits three chunks and ingests the one-row
block. -/
theorem writeBlock_budget_protocol_witness :
    (writeBlockSteal 10 c4Psp 0).2.2.1 = true ∧
    (writeBlockSteal 10 c4Psp 0).1 = 60 ∧ (writeBlockSteal 10 c4Psp 0).2.1 = 5 ∧
    ∃ k : Nat, 1 ≤ k ∧ (writeBlockSteal 10 c4Psp 0).1 = c4Psp.stateSizeBudget - k * 10 := by
  refine ⟨by decide, by decide, by decide, ?_⟩
  obtain ⟨k, hk1, hk⟩ := (writeBlock_budget_protocol 10 c4Psp 0
    { timestamps := [0], columns := [] } (by decide) (by decide) (by decide)).1
  rcases hk with ⟨_, h2, _⟩ | ⟨h1, _⟩
  · exact ⟨k, hk1, h2⟩
  · exact absurd h1 (by decide)

/-- Appending one value per column preserves the column names. -/
lemma zipWith_addValue_names (rcs : List resultColumn) (vals : List String) :
    (List.zipWith (fun rc v => { rc with values := rc.values ++ [v] }) rcs vals).map
        (fun rc => rc.name) =
      (rcs.take vals.length).map (fun rc => rc.name) := by
  induction rcs generalizing vals with
  | nil => simp
  | cons rc rcs ih =>
    cases vals with
    | nil => simp
    | cons v vals => simp [ih]

/-- `pipeSortWriteContext.flush` preserves the accumulator's column names. -/
lemma wctx_flush_names (wctx : pipeSortWriteContext) :
    wctx.flush.rcs.map (fun rc => rc.name) = wctx.rcs.map (fun rc => rc.name) := by
  unfold pipeSortWriteContext.flush
  by_cases h : wctx.rcs.length = 0
  · rw [if_pos h]
  · rw [if_neg h]
    simp

/-- `pipeSortWriteContext.flush` only ever writes with worker id 0. -/
lemma wctx_flush_workerId (wctx : pipeSortWriteContext)
    (h : ∀ p ∈ wctx.writes, p.1 = 0) :
    ∀ p ∈ wctx.flush.writes, p.1 = 0 := by
  unfold pipeSortWriteContext.flush
  by_cases h0 : wctx.rcs.length = 0
  · rw [if_pos h0]
    exact h
  · rw [if_neg h0]
    intro p hp
    simp only [List.mem_append, List.mem_singleton] at hp
    rcases hp with hp | hp
    · exact h p hp
    · rw [hp]

/-- `pipeSortWriteContext.flush` appends only zero-worker-id writes. -/
lemma wctx_flush_writes_shape (wctx : pipeSortWriteContext) :
    ∃ tail, wctx.flush.writes = wctx.writes ++ tail ∧ ∀ p ∈ tail, p.1 = 0 := by
  unfold pipeSortWriteContext.flush
  by_cases h0 : wctx.rcs.length = 0
  · rw [if_pos h0]
    exact ⟨[], by simp⟩
  · rw [if_neg h0]
    refine ⟨[(0, wctx.rcs)], rfl, ?_⟩
    intro p hp
    simp only [List.mem_singleton] at hp
    rw [hp]

/-- `writeRow` appends only zero-worker-id writes. -/
lemma writeRow_writes_shape (wctx : pipeSortWriteContext) (shard : pipeSortProcessorShard)
    (rowIdx : Nat) :
    ∃ tail, (wctx.writeRow shard rowIdx).writes = wctx.writes ++ tail ∧ ∀ p ∈ tail, p.1 = 0 := by
  unfold pipeSortWriteContext.writeRow
  by_cases hEq : writeRowAreEqualColumns wctx shard.ps.byFields
      (shard.blocks.getD (shard.rowRefs.getD rowIdx default).blockIdx default) = true
  · simp only [hEq, if_true]
    split
    · obtain ⟨t, ht, ht0⟩ := wctx_flush_writes_shape
        { rcs := List.zipWith (fun rc v => { rc with values := rc.values ++ [v] }) wctx.rcs
            (writeRowRowVals shard.ps.byFields
              (shard.blocks.getD (shard.rowRefs.getD rowIdx default).blockIdx default)
              (shard.rowRefs.getD rowIdx default)),
          valuesLen := wctx.valuesLen +
            ((writeRowRowVals shard.ps.byFields
              (shard.blocks.getD (shard.rowRefs.getD rowIdx default).blockIdx default)
              (shard.rowRefs.getD rowIdx default)).map String.utf8ByteSize).sum,
          writes := wctx.writes }
      exact ⟨t, ht, ht0⟩
    · exact ⟨[], by simp, by simp⟩
  · simp only [hEq, Bool.false_eq_true, if_false]
    obtain ⟨t1, ht1, ht10⟩ := wctx_flush_writes_shape wctx
    split
    · rename_i hcond
      obtain ⟨t2, ht2, ht20⟩ := wctx_flush_writes_shape _
      refine ⟨t1 ++ t2, ?_, ?_⟩
      · rw [ht2]
        simp only [ht1]
        rw [List.append_assoc]
      · intro p hp
        rcases List.mem_append.mp hp with hp | hp
        · exact ht10 p hp
        · exact ht20 p hp
    · refine ⟨t1, ?_, ht10⟩
      simp only [ht1]

/-- Length of the per-row value list appended by `writeRow`. -/
lemma writeRowRowVals_length (byFields : List bySortField) (b : sortBlock) (rr : sortRowRef) :
    (writeRowRowVals byFields b rr).length = byFields.length + b.otherColumns.length := by
  unfold writeRowRowVals
  simp

/-- Unfolding of the `areEqualColumns` test. -/
lemma writeRowAreEqualColumns_iff (wctx : pipeSortWriteContext) (byFields : List bySortField)
    (b : sortBlock) :
    writeRowAreEqualColumns wctx byFields b = true ↔
      (wctx.rcs.length = byFields.length + b.otherColumns.length ∧
        (wctx.rcs.drop byFields.length).map (fun rc => rc.name) =
          b.otherColumns.map (fun c => c.name)) := by
  unfold writeRowAreEqualColumns
  simp

/-- C7: the output batcher.  (a) When the row's source block has the
accumulator's column shape and the 1,000,000-byte threshold is not reached,
`writeRow` writes nothing downstream and accumulates the row's byte length.
(b) When the column shape differs while rows are accumulated, the
accumulated batch is flushed downstream before anything else is written.
(c) When the accumulated byte length reaches 1,000,000, the appended batch is
flushed downstream and the byte counter resets to zero.  (d) Every downstream
write carries worker id 0.  (e) After the call the accumulator's columns are
named by the key fields followed by the current source block's non-key
columns, in order. -/
theorem writeRow_batching (wctx : pipeSortWriteContext) (shard : pipeSortProcessorShard)
    (rowIdx : Nat) :
    (writeRowAreEqualColumns wctx shard.ps.byFields (writeRowBlock shard rowIdx) = true →
      wctx.valuesLen + writeRowAddedLen shard rowIdx < 1000000 →
      (wctx.writeRow shard rowIdx).writes = wctx.writes ∧
      (wctx.writeRow shard rowIdx).valuesLen = wctx.valuesLen + writeRowAddedLen shard rowIdx) ∧
    (writeRowAreEqualColumns wctx shard.ps.byFields (writeRowBlock shard rowIdx) = false →
      wctx.rcs ≠ [] →
      ∃ rest, (wctx.writeRow shard rowIdx).writes = wctx.writes ++ (0, wctx.rcs) :: rest) ∧
    (writeRowAreEqualColumns wctx shard.ps.byFields (writeRowBlock shard rowIdx) = true →
      wctx.valuesLen + writeRowAddedLen shard rowIdx ≥ 1000000 →
      wctx.rcs ≠ [] →
      (wctx.writeRow shard rowIdx).writes = wctx.writes ++
        [(0, List.zipWith (fun rc v => { rc with values := rc.values ++ [v] }) wctx.rcs
          (writeRowRowVals shard.ps.byFields (writeRowBlock shard rowIdx)
            (shard.rowRefs.getD rowIdx default)))] ∧
      (wctx.writeRow shard rowIdx).valuesLen = 0) ∧
    ((∀ p ∈ wctx.writes, p.1 = 0) → ∀ p ∈ (wctx.writeRow shard rowIdx).writes, p.1 = 0) ∧
    ((wctx.rcs ≠ [] →
        (wctx.rcs.take shard.ps.byFields.length).map (fun rc => rc.name) =
          shard.ps.byFields.map (fun bf => bf.name)) →
      (wctx.writeRow shard rowIdx).rcs.map (fun rc => rc.name) =
        shard.ps.byFields.map (fun bf => bf.name) ++
          (writeRowBlock shard rowIdx).otherColumns.map (fun c => c.name)) := by
  refine ⟨?_, ?_, ?_, ?_, ?_⟩
  · intro hEq hlt
    unfold writeRowBlock at hEq
    unfold writeRowAddedLen writeRowBlock at hlt
    unfold pipeSortWriteContext.writeRow
    simp only [hEq, if_true]
    split
    · rename_i hcond
      exfalso
      omega
    · exact ⟨rfl, rfl⟩
  · intro hEq hne
    unfold writeRowBlock at hEq
    have hlen : ¬ wctx.rcs.length = 0 := fun h => hne (List.length_eq_zero.mp h)
    unfold pipeSortWriteContext.writeRow
    simp only [hEq, Bool.false_eq_true, if_false]
    unfold pipeSortWriteContext.flush
    simp only [hlen, if_false]
    split
    · split
      · exact ⟨[], by simp⟩
      · refine ⟨[(0, List.zipWith (fun rc v => { rc with values := rc.values ++ [v] })
            (List.map (fun bf => ({ name := bf.name, values := [] } : resultColumn))
                shard.ps.byFields ++
              List.map (fun c => ({ name := c.name, values := [] } : resultColumn))
                (shard.blocks.getD (shard.rowRefs.getD rowIdx default).blockIdx
                  default).otherColumns)
            (writeRowRowVals shard.ps.byFields
              (shard.blocks.getD (shard.rowRefs.getD rowIdx default).blockIdx default)
              (shard.rowRefs.getD rowIdx default)))], ?_⟩
        simp
    · exact ⟨[], by simp⟩
  · intro hEq0 hge hne
    have hiff := (writeRowAreEqualColumns_iff wctx shard.ps.byFields (writeRowBlock shard rowIdx)).mp hEq0
    unfold writeRowBlock at hiff
    have hEq := hEq0
    unfold writeRowBlock at hEq
    unfold writeRowAddedLen writeRowBlock at hge
    have hvl := writeRowRowVals_length shard.ps.byFields (writeRowBlock shard rowIdx)
      (shard.rowRefs.getD rowIdx default)
    unfold writeRowBlock at hvl
    unfold pipeSortWriteContext.writeRow writeRowBlock
    simp only [hEq, if_true]
    split
    · have hz : ¬ (List.zipWith (fun rc v => { rc with values := rc.values ++ [v] }) wctx.rcs
          (writeRowRowVals shard.ps.byFields
            (shard.blocks.getD (shard.rowRefs.getD rowIdx default).blockIdx default)
            (shard.rowRefs.getD rowIdx default))).length = 0 := by
        rw [List.length_zipWith]
        have h1 : ¬ wctx.rcs.length = 0 := fun h => hne (List.length_eq_zero.mp h)
        omega
      unfold pipeSortWriteContext.flush
      simp only [hz, if_false]
      exact ⟨by trivial, by trivial⟩
    · rename_i hcond
      exfalso
      omega
  · intro h0 p hp
    obtain ⟨t, ht, ht0⟩ := writeRow_writes_shape wctx shard rowIdx
    rw [ht] at hp
    rcases List.mem_append.mp hp with hp | hp
    · exact h0 p hp
    · exact ht0 p hp
  · intro hnm
    have hvl := writeRowRowVals_length shard.ps.byFields (writeRowBlock shard rowIdx)
      (shard.rowRefs.getD rowIdx default)
    unfold writeRowBlock at hvl
    unfold writeRowBlock
    by_cases hEq : writeRowAreEqualColumns wctx shard.ps.byFields
        (shard.blocks.getD (shard.rowRefs.getD rowIdx default).blockIdx default) = true
    · obtain ⟨hlenEq, hdrop⟩ := (writeRowAreEqualColumns_iff wctx shard.ps.byFields _).mp hEq
      have main : (List.zipWith (fun rc v => { rc with values := rc.values ++ [v] }) wctx.rcs
          (writeRowRowVals shard.ps.byFields
            (shard.blocks.getD (shard.rowRefs.getD rowIdx default).blockIdx default)
            (shard.rowRefs.getD rowIdx default))).map (fun rc => rc.name) =
          shard.ps.byFields.map (fun bf => bf.name) ++
            (shard.blocks.getD (shard.rowRefs.getD rowIdx default).blockIdx
              default).otherColumns.map (fun c => c.name) := by
        rw [zipWith_addValue_names, hvl, ← hlenEq, List.take_length]
        by_cases hrc : wctx.rcs = []
        · rw [hrc] at hlenEq
          simp only [List.length_nil] at hlenEq
          have hbf : shard.ps.byFields = [] := by
            have := List.length_eq_zero.mp (by omega :
              shard.ps.byFields.length = 0)
            exact this
          have hoc : (shard.blocks.getD (shard.rowRefs.getD rowIdx default).blockIdx
              default).otherColumns = [] := by
            exact List.length_eq_zero.mp (by omega)
          rw [hrc, hbf, hoc]
          simp
        · conv_lhs => rw [← List.take_append_drop shard.ps.byFields.length wctx.rcs]
          rw [List.map_append, hnm hrc, hdrop]
      unfold pipeSortWriteContext.writeRow
      simp only [hEq, if_true]
      split
      · rw [wctx_flush_names]
        exact main
      · exact main
    · simp only [Bool.not_eq_true] at hEq
      have main : (List.zipWith (fun rc v => { rc with values := rc.values ++ [v] })
          (shard.ps.byFields.map (fun bf => ({ name := bf.name, values := [] } : resultColumn)) ++
            (shard.blocks.getD (shard.rowRefs.getD rowIdx default).blockIdx
              default).otherColumns.map (fun c => ({ name := c.name, values := [] } : resultColumn)))
          (writeRowRowVals shard.ps.byFields
            (shard.blocks.getD (shard.rowRefs.getD rowIdx default).blockIdx default)
            (shard.rowRefs.getD rowIdx default))).map (fun rc => rc.name) =
          shard.ps.byFields.map (fun bf => bf.name) ++
            (shard.blocks.getD (shard.rowRefs.getD rowIdx default).blockIdx
              default).otherColumns.map (fun c => c.name) := by
        rw [zipWith_addValue_names, hvl]
        have hlen1 : (shard.ps.byFields.map (fun bf => ({ name := bf.name, values := [] } : resultColumn)) ++
            (shard.blocks.getD (shard.rowRefs.getD rowIdx default).blockIdx
              default).otherColumns.map (fun c => ({ name := c.name, values := [] } : resultColumn))).length =
            shard.ps.byFields.length +
              (shard.blocks.getD (shard.rowRefs.getD rowIdx default).blockIdx
                default).otherColumns.length := by
          simp
        rw [← hlen1, List.take_length, List.map_append, List.map_map, List.map_map]
        rfl
      unfold pipeSortWriteContext.writeRow
      simp only [hEq, Bool.false_eq_true, if_false]
      split
      · rw [wctx_flush_names]
        exact main
      · exact main

/-- Witness for `writeRow_batching`: appending the second row of the same
block writes nothing downstream (same shape, small byte total) and leaves the
accumulator's columns named `n`, `m`. -/
theorem writeRow_batching_witness :
    (c7Wctx.writeRow c7Shard 1).writes = c7Wctx.writes ∧
    (c7Wctx.writeRow c7Shard 1).rcs.map (fun rc => rc.name) = ["n", "m"] := by
  refine ⟨((writeRow_batching c7Wctx c7Shard 1).1 (by decide) (by decide)).1, ?_⟩
  have h := (writeRow_batching c7Wctx c7Shard 1).2.2.2.2 (fun _ => by decide)
  rw [h]
  decide

/-- Distinct character lists are strictly ordered one way exactly. -/
lemma goStringLtList_total : ∀ {as bs : List Char}, as ≠ bs →
    goStringLtList bs as = !goStringLtList as bs := by
  intro as
  induction as with
  | nil =>
    intro bs h
    cases bs with
    | nil => exact absurd rfl h
    | cons b bs => rfl
  | cons a as ih =>
    intro bs h
    cases bs with
    | nil => rfl
    | cons b bs =>
      by_cases hab : a = b
      · subst hab
        have hne : as ≠ bs := by
          intro hEq
          exact h (by rw [hEq])
        simp only [goStringLtList, if_pos rfl]
        exact ih hne
      · have hba : ¬ b = a := fun hEq => hab hEq.symm
        simp only [goStringLtList, if_neg hab, if_neg hba]
        have hlt : a < b ∨ b < a := by
          rcases Nat.lt_trichotomy a.toNat b.toNat with h1 | h1 | h1
          · exact Or.inl h1
          · exact absurd (Char.eq_of_val_eq (by
              have := h1
              exact UInt32.eq_of_val_eq (by
                apply Fin.eq_of_val_eq
                simpa using this))) hab
          · exact Or.inr h1
        rcases hlt with h1 | h1
        · have h2 : ¬ b < a := by
            intro h2
            exact absurd rfl (ne_of_gt (lt_trans h1 h2))
          simp [h1, h2]
        · have h2 : ¬ a < b := by
            intro h2
            exact absurd rfl (ne_of_gt (lt_trans h1 h2))
          simp [h1, h2]

/-- Distinct strings are strictly ordered one way exactly. -/
lemma goStringLt_total {a b : String} (h : a ≠ b) : goStringLt b a = !goStringLt a b := by
  unfold goStringLt
  apply goStringLtList_total
  intro hd
  apply h
  cases a
  cases b
  exact congrArg String.mk hd

/-- Distinct integers are strictly ordered one way exactly. -/
lemma Int_decide_lt_total {a b : Int} (h : ¬ a = b) :
    decide (b < a) = !decide (a < b) := by
  by_cases h1 : a < b
  · have h2 : ¬ b < a := by omega
    simp [h1, h2]
  · have h2 : b < a := by omega
    simp [h1, h2]

/-- Two non-NaN, non-equal floats are strictly ordered one way exactly. -/
lemma F64_lt_total {x y : F64} (hx : x.isNaN = false) (hy : y.isNaN = false)
    (h : x.eqv y = false) : F64.lt y x = !F64.lt x y := by
  cases x with
  | nan => simp [F64.isNaN] at hx
  | val a b =>
    cases y with
    | nan => simp [F64.isNaN] at hy
    | val c d =>
      simp only [F64.eqv, decide_eq_false_iff_not] at h
      simp only [F64.lt]
      exact Int_decide_lt_total h

/-- Value equality of floats is symmetric. -/
lemma F64_eqv_symm (x y : F64) : F64.eqv y x = F64.eqv x y := by
  cases x <;> cases y <;> simp [F64.eqv, eq_comm]


/-- Swapping the two rows negates a decided comparison and preserves
fall-through: one comparator step is the Boolean mirror of the swapped step.
Both calls read the direction flags from the same `ps`. -/
lemma sortBlockCompareAt_mirror (ps : pipeSort) (bA : sortBlock) (rrA : sortRowRef)
    (bB : sortBlock) (rrB : sortRowRef) (idx : Nat) :
    sortBlockCompareAt ps bB rrB bA rrA idx =
      Option.map not (sortBlockCompareAt ps bA rrA bB rrB idx) := by
  simp only [sortBlockCompareAt]
  set cA := bA.byColumns.getD idx default with hcA
  set cB := bB.byColumns.getD idx default with hcB
  set tA := bA.br.timestamps.getD rrA.rowIdx 0 with htA
  set tB := bB.br.timestamps.getD rrB.rowIdx 0 with htB
  set uA := cA.getI64ValueAtRow rrA.rowIdx with huA
  set uB := cB.getI64ValueAtRow rrB.rowIdx with huB
  set fA := cA.getF64ValueAtRow rrA.rowIdx with hfA
  set fB := cB.getF64ValueAtRow rrB.rowIdx with hfB
  set sA := cA.c.getValueAtRow bA.br rrA.rowIdx with hsA
  set sB := cB.c.getValueAtRow bB.br rrB.rowIdx with hsB
  set d := effectiveDesc ps idx with hd
  cases hCA : cA.c.isConst <;> cases hCB : cB.c.isConst <;>
    simp only [hCA, hCB, Bool.and_self, Bool.and_false, Bool.false_and, Bool.and_true,
      Bool.true_and, Bool.false_eq_true, if_true, if_false]
  on_goal 4 => (
    by_cases hcc : cA.c.encodedValues.getD 0 "" = cB.c.encodedValues.getD 0 ""
    · rw [if_pos hcc, if_pos hcc.symm]
      rfl
    · have hcc' : ¬ cB.c.encodedValues.getD 0 "" = cA.c.encodedValues.getD 0 "" :=
        fun h => hcc h.symm
      rw [if_neg hcc, if_neg hcc']
      rw [goStringLt_total hcc]
      rfl)
  all_goals (
    cases hTA : cA.c.isTime <;> cases hTB : cB.c.isTime <;>
      simp only [hTA, hTB, Bool.and_self, Bool.and_false, Bool.false_and, Bool.and_true,
        Bool.true_and, Bool.false_eq_true, if_true, if_false])
  all_goals try rfl
  all_goals try (
    by_cases ht : tA = tB
    · rw [if_pos ht, if_pos ht.symm]
      rfl
    · have ht' : ¬ tB = tA := fun h => ht h.symm
      rw [if_neg ht, if_neg ht']
      by_cases hdt : d = true
      · rw [if_pos hdt, if_pos hdt, Int_decide_lt_total ht']
        rfl
      · rw [if_neg hdt, if_neg hdt, Int_decide_lt_total ht]
        rfl)
  all_goals (
    by_cases hu : uA ≠ 0 ∧ uB ≠ 0
    · have hu' : uB ≠ 0 ∧ uA ≠ 0 := ⟨hu.2, hu.1⟩
      rw [if_pos hu', if_pos hu]
      by_cases huEq : uA = uB
      · rw [if_pos huEq.symm, if_pos huEq]
        rfl
      · have huEq' : ¬ uB = uA := fun h => huEq h.symm
        rw [if_neg huEq', if_neg huEq]
        by_cases hdt : d = true
        · rw [if_pos hdt, if_pos hdt, Int_decide_lt_total huEq']
          rfl
        · rw [if_neg hdt, if_neg hdt, Int_decide_lt_total huEq]
          rfl
    · have hu' : ¬ (uB ≠ 0 ∧ uA ≠ 0) := fun h => hu ⟨h.2, h.1⟩
      rw [if_neg hu', if_neg hu]
      cases hfa : fA.isNaN <;> cases hfb : fB.isNaN <;>
        simp only [hfa, hfb, Bool.not_true, Bool.not_false, Bool.and_self, Bool.and_false,
          Bool.false_and, Bool.and_true, Bool.true_and, Bool.false_eq_true, if_true, if_false]
      all_goals try (
        by_cases hfe : fA.eqv fB = true
        · rw [if_pos (show fB.eqv fA = true by rw [F64_eqv_symm]; exact hfe), if_pos hfe]
          rfl
        · have hfeF : fA.eqv fB = false := by
            cases hx : fA.eqv fB
            · rfl
            · exact absurd hx hfe
          have hfe2 : ¬ fB.eqv fA = true := by
            rw [F64_eqv_symm]
            exact hfe
          rw [if_neg hfe2, if_neg hfe]
          by_cases hdt : d = true
          · have hfeF2 : fB.eqv fA = false := by
              rw [F64_eqv_symm]
              exact hfeF
            rw [if_pos hdt, if_pos hdt, F64_lt_total hfb hfa hfeF2]
            rfl
          · rw [if_neg hdt, if_neg hdt, F64_lt_total hfa hfb hfeF]
            rfl)
      all_goals (
        by_cases hss : sA = sB
        · rw [if_pos hss.symm, if_pos hss]
          rfl
        · have hss' : ¬ sB = sA := fun h => hss h.symm
          rw [if_neg hss', if_neg hss]
          by_cases hdt : d = true
          · rw [if_pos hdt, if_pos hdt, goStringLt_total hss']
            rfl
          · rw [if_neg hdt, if_neg hdt, goStringLt_total hss]
            rfl))

/-- If the key loop decides `true` for one orientation, the same loop on the
mirrored orientation decides `false` (or falls through), for any index list. -/
lemma sortBlockLessLoop_asymm (ps : pipeSort) (bA : sortBlock) (rrA : sortRowRef)
    (bB : sortBlock) (rrB : sortRowRef) :
    ∀ l : List Nat, sortBlockLessLoop ps bA rrA bB rrB l = true →
      sortBlockLessLoop ps bB rrB bA rrA l = false := by
  intro l
  induction l with
  | nil => intro h; exact absurd h (by simp [sortBlockLessLoop])
  | cons idx rest ih =>
    intro h
    have hm := sortBlockCompareAt_mirror ps bA rrA bB rrB idx
    simp only [sortBlockLessLoop] at h ⊢
    cases hstep : sortBlockCompareAt ps bA rrA bB rrB idx with
    | none =>
      rw [hstep] at h hm
      simp only [Option.map_none'] at hm
      rw [hm]
      exact ih h
    | some r =>
      rw [hstep] at h hm
      simp only [Option.map_some'] at hm
      rw [hm]
      cases r with
      | false => exact absurd h (by simp)
      | true => rfl

/-- C10: `sortBlockLess` is asymmetric over well-formed shards with the same
sort configuration: the two orientations of any pair of valid row references
are never both `true`; in particular it is irreflexive. -/
theorem sortBlockLess_asymmetric (shardA : pipeSortProcessorShard) (rowIdxA : Nat)
    (shardB : pipeSortProcessorShard) (rowIdxB : Nat)
    (hps : shardA.ps = shardB.ps)
    (hWFA : shardWF shardA) (hWFB : shardWF shardB)
    (hA : rowIdxA < shardA.rowRefs.length) (hB : rowIdxB < shardB.rowRefs.length) :
    ¬(sortBlockLess shardA rowIdxA shardB rowIdxB = true ∧
      sortBlockLess shardB rowIdxB shardA rowIdxA = true) ∧
    sortBlockLess shardA rowIdxA shardA rowIdxA = false := by
  have key : ∀ (sA : pipeSortProcessorShard) (iA : Nat) (sB : pipeSortProcessorShard) (iB : Nat),
      sA.ps = sB.ps → shardWF sA → shardWF sB →
      iA < sA.rowRefs.length → iB < sB.rowRefs.length →
      sortBlockLess sA iA sB iB = true → sortBlockLess sB iB sA iA = false := by
    intro sA iA sB iB hps' hWA hWB hiA hiB h1
    have hrrA : sA.rowRefs.getD iA default ∈ sA.rowRefs :=
      List.get?_mem (List_get?_getD _ _ _ hiA)
    have hrrB : sB.rowRefs.getD iB default ∈ sB.rowRefs :=
      List.get?_mem (List_get?_getD _ _ _ hiB)
    have hbndA := hWA.2 _ hrrA
    have hbndB := hWB.2 _ hrrB
    have hbA : sA.blocks.getD (sA.rowRefs.getD iA default).blockIdx default ∈ sA.blocks :=
      List.get?_mem (List_get?_getD _ _ _ hbndA.1)
    have hbB : sB.blocks.getD (sB.rowRefs.getD iB default).blockIdx default ∈ sB.blocks :=
      List.get?_mem (List_get?_getD _ _ _ hbndB.1)
    have hlenA : (sA.blocks.getD (sA.rowRefs.getD iA default).blockIdx default).byColumns.length =
        pipeSortKeyCount sA.ps := (hWA.1 _ hbA).1
    have hlenB : (sB.blocks.getD (sB.rowRefs.getD iB default).blockIdx default).byColumns.length =
        pipeSortKeyCount sB.ps := (hWB.1 _ hbB).1
    simp only [sortBlockLess, sortRowRefLess] at h1 ⊢
    rw [hlenA] at h1
    rw [hlenB, ← hps']
    exact sortBlockLessLoop_asymm sA.ps _ _ _ _ _ h1
  constructor
  · rintro ⟨h1, h2⟩
    rw [key shardA rowIdxA shardB rowIdxB hps hWFA hWFB hA hB h1] at h2
    exact absurd h2 (by simp)
  · cases hval : sortBlockLess shardA rowIdxA shardA rowIdxA with
    | false => rfl
    | true =>
      have := key shardA rowIdxA shardA rowIdxA rfl hWFA hWFA hA hA hval
      rw [hval] at this
      exact absurd this (by simp)

/-- Witness for `sortBlockLess_asymmetric`: on a concrete shard, a row never
compares below itself, and rows 0 and 1 are not both below each other. -/
theorem sortBlockLess_asymmetric_witness :
    sortBlockLess c10Shard 0 c10Shard 0 = false ∧
    ¬(sortBlockLess c10Shard 0 c10Shard 1 = true ∧
      sortBlockLess c10Shard 1 c10Shard 0 = true) := by
  have h1 := sortBlockLess_asymmetric c10Shard 0 c10Shard 1 rfl
    (by unfold shardWF sortBlockWF sortBlockByColumnWF pipeSortKeyCount; decide)
    (by unfold shardWF sortBlockWF sortBlockByColumnWF pipeSortKeyCount; decide)
    (by decide) (by decide)
  exact ⟨h1.2, h1.1⟩

/-- `createInt64Values` yields one entry per input value. -/
lemma createInt64Values_length (values : List String) :
    (createInt64Values values).length = values.length := by
  unfold createInt64Values
  simp

/-- `createFloat64Values` yields one entry per input value. -/
lemma createFloat64Values_length (values : List String) :
    (createFloat64Values values).length = values.length := by
  unfold createFloat64Values
  simp

/-- Column resolution preserves column well-formedness (a missing name
resolves to a well-formed const column). -/
lemma getColumnByName_WF {br : blockResult} (h : blockResultWF br) (name : String) :
    blockResultColumnWF br.timestamps.length (br.getColumnByName name) := by
  unfold blockResult.getColumnByName
  cases hf : br.columns.find? (fun c => c.name = name) with
  | some c => exact h c (List.mem_of_find?_eq_some hf)
  | none =>
    unfold blockResultColumnWF
    refine ⟨?_, ?_, ?_⟩
    · intro hT
      exact nomatch hT
    · intro _
      rfl
    · intro hC _
      exact nomatch hC

/-- Appending one well-formed block together with its in-range row
references preserves shard well-formedness. -/
lemma shardWF_append (sh : pipeSortProcessorShard) (nb : sortBlock) (b : Int)
    (hWF : shardWF sh) (hnb : sortBlockWF (pipeSortKeyCount sh.ps) nb) :
    shardWF { sh with
      blocks := sh.blocks ++ [nb],
      rowRefs := sh.rowRefs ++ (List.range nb.br.timestamps.length).map
        (fun i => { blockIdx := sh.blocks.length, rowIdx := i }),
      stateSizeBudget := b } := by
  constructor
  · intro sb hsb
    rcases List.mem_append.mp hsb with h | h
    · exact hWF.1 sb h
    · rw [List.mem_singleton.mp h]
      exact hnb
  · intro rr hrr
    rcases List.mem_append.mp hrr with h | h
    · obtain ⟨h1, h2⟩ := hWF.2 rr h
      refine ⟨by simp only [List.length_append]; omega, ?_⟩
      show rr.rowIdx < ((sh.blocks ++ [nb]).getD rr.blockIdx default).br.timestamps.length
      have heq : (sh.blocks ++ [nb]).getD rr.blockIdx default =
          sh.blocks.getD rr.blockIdx default := by
        rw [List.getD_eq_get?, List.getD_eq_get?, List.get?_append h1]
      rw [heq]
      exact h2
    · obtain ⟨i, hi, hrfl⟩ := List.mem_map.mp h
      rw [← hrfl]
      constructor
      · show sh.blocks.length < (sh.blocks ++ [nb]).length
        simp
      · show i < ((sh.blocks ++ [nb]).getD sh.blocks.length default).br.timestamps.length
        have heq : (sh.blocks ++ [nb]).getD sh.blocks.length default = nb := by
          rw [List.getD_eq_get?, List.get?_concat_length]
          rfl
        rw [heq]
        exact List.mem_range.mp hi

/-- `pipeSortProcessorShard.writeBlock` preserves shard well-formedness for
well-formed input blocks: the built side arrays have exactly the lengths the
comparator requires. -/
lemma writeBlock_preserves_WF (shard : pipeSortProcessorShard) (br : blockResult)
    (hbr : blockResultWF br) (hWF : shardWF shard) :
    shardWF (shard.writeBlock br) := by
  unfold pipeSortProcessorShard.writeBlock
  by_cases hbf : shard.ps.byFields.length = 0
  · simp only [hbf, if_pos]
    exact shardWF_append shard _ _ hWF (by
      constructor
      · show 1 = pipeSortKeyCount shard.ps
        unfold pipeSortKeyCount
        rw [if_pos hbf]
      · intro bc hbc
        rw [List.mem_singleton.mp hbc]
        unfold sortBlockByColumnWF
        refine ⟨?_, ?_, ?_⟩
        · intro hT
          exact nomatch hT
        · intro _ hC
          exact nomatch hC
        · intro _ _
          refine ⟨by simp, by simp, by simp⟩)
  · simp only [hbf, if_neg, if_false]
    exact shardWF_append shard _ _ hWF (by
      constructor
      · show (shard.ps.byFields.map _).length = pipeSortKeyCount shard.ps
        unfold pipeSortKeyCount
        rw [if_neg hbf, List.length_map]
      · intro bc hbc
        obtain ⟨bf, hbfmem, hrfl⟩ := List.mem_map.mp hbc
        have hcWF := getColumnByName_WF hbr bf.name
        rw [← hrfl]
        by_cases hT : (br.getColumnByName bf.name).isTime = true
        · simp only [hT, if_true]
          unfold sortBlockByColumnWF
          refine ⟨?_, ?_, ?_⟩
          · intro _
            exact hcWF.1 hT
          · intro h _
            rw [hT] at h
            exact nomatch h
          · intro h _
            rw [hT] at h
            exact nomatch h
        · simp only [Bool.not_eq_true] at hT
          simp only [hT, Bool.false_eq_true, if_false]
          by_cases hC : (br.getColumnByName bf.name).isConst = true
          · simp only [hC, if_true]
            have hlen1 := hcWF.2.1 hC
            unfold sortBlockByColumnWF
            refine ⟨?_, ?_, ?_⟩
            · intro h
              rw [hT] at h
              exact nomatch h
            · intro _ _
              exact ⟨hlen1, by rw [createInt64Values_length, hlen1],
                by rw [createFloat64Values_length, hlen1]⟩
            · intro _ h
              rw [hC] at h
              exact nomatch h
          · simp only [Bool.not_eq_true] at hC
            simp only [hC, Bool.false_eq_true, if_false]
            have hlen2 := hcWF.2.2 hC hT
            unfold sortBlockByColumnWF
            refine ⟨?_, ?_, ?_⟩
            · intro h
              rw [hT] at h
              exact nomatch h
            · intro _ h
              rw [hC] at h
              exact nomatch h
            · intro _ _
              unfold blockResultColumn.getValues
              exact ⟨hlen2, by rw [createInt64Values_length]; exact hlen2,
                by rw [createFloat64Values_length]; exact hlen2⟩)

/-- For an in-range key index the checked direction computation succeeds with
the unchecked value. -/
lemma effectiveDescChecked_eq (ps : pipeSort) (idx : Nat)
    (hidx : idx < pipeSortKeyCount ps) :
    effectiveDescChecked ps idx = some (effectiveDesc ps idx) := by
  unfold effectiveDescChecked effectiveDesc
  by_cases hbf : ps.byFields.length > 0
  · have hlt : idx < ps.byFields.length := by
      unfold pipeSortKeyCount at hidx
      rw [if_neg (by omega)] at hidx
      exact hidx
    rw [if_pos hbf, List_get?_getD ps.byFields idx default hlt]
    simp [hbf]
  · rw [if_neg hbf]
    simp [hbf]

/-- For a well-formed non-time key column and an in-range row, the checked
int64 getter succeeds with the unchecked value. -/
lemma getI64Checked_eq (bc : sortBlockByColumn) (i rowCount : Nat)
    (hWF : sortBlockByColumnWF rowCount bc) (hT : bc.c.isTime = false) (hi : i < rowCount) :
    bc.getI64ValueAtRowChecked i = some (bc.getI64ValueAtRow i) := by
  unfold sortBlockByColumn.getI64ValueAtRowChecked sortBlockByColumn.getI64ValueAtRow
  by_cases hC : bc.c.isConst = true
  · rw [if_pos hC, if_pos hC]
    exact List_get?_getD _ 0 0 (by rw [(hWF.2.1 hT hC).2.1]; omega)
  · simp only [Bool.not_eq_true] at hC
    rw [if_neg (by rw [hC]; exact Bool.false_ne_true), if_neg (by rw [hC]; exact Bool.false_ne_true)]
    exact List_get?_getD _ i 0 (by rw [(hWF.2.2 hT hC).2.1]; exact hi)

/-- For a well-formed non-time key column and an in-range row, the checked
float64 getter succeeds with the unchecked value. -/
lemma getF64Checked_eq (bc : sortBlockByColumn) (i rowCount : Nat)
    (hWF : sortBlockByColumnWF rowCount bc) (hT : bc.c.isTime = false) (hi : i < rowCount) :
    bc.getF64ValueAtRowChecked i = some (bc.getF64ValueAtRow i) := by
  unfold sortBlockByColumn.getF64ValueAtRowChecked sortBlockByColumn.getF64ValueAtRow
  by_cases hC : bc.c.isConst = true
  · rw [if_pos hC, if_pos hC]
    exact List_get?_getD _ 0 F64.nan (by rw [(hWF.2.1 hT hC).2.2]; omega)
  · simp only [Bool.not_eq_true] at hC
    rw [if_neg (by rw [hC]; exact Bool.false_ne_true), if_neg (by rw [hC]; exact Bool.false_ne_true)]
    exact List_get?_getD _ i F64.nan (by rw [(hWF.2.2 hT hC).2.2]; exact hi)

/-- For a well-formed non-time key column and an in-range row, the checked
string getter succeeds with the unchecked value. -/
lemma getValueChecked_eq (bc : sortBlockByColumn) (br : blockResult) (i rowCount : Nat)
    (hWF : sortBlockByColumnWF rowCount bc) (hT : bc.c.isTime = false) (hi : i < rowCount) :
    bc.c.getValueAtRowChecked br i = some (bc.c.getValueAtRow br i) := by
  unfold blockResultColumn.getValueAtRowChecked blockResultColumn.getValueAtRow
  by_cases hC : bc.c.isConst = true
  · rw [if_pos hC, if_pos hC]
    exact List_get?_getD _ 0 "" (by rw [(hWF.2.1 hT hC).1]; omega)
  · simp only [Bool.not_eq_true] at hC
    rw [if_neg (by rw [hC]; exact Bool.false_ne_true), if_neg (by rw [hC]; exact Bool.false_ne_true)]
    exact List_get?_getD _ i "" (by rw [(hWF.2.2 hT hC).1]; exact hi)

/-- For well-formed blocks, an in-range key index and in-range rows, one
checked comparator step performs no out-of-bounds access and agrees with the
unchecked step.  In particular, when either column is a time column the step
returns inside the time branches and never touches the (possibly empty)
numeric side arrays. -/
lemma sortBlockCompareAtChecked_eq (ps : pipeSort) (bA : sortBlock) (rrA : sortRowRef)
    (bB : sortBlock) (rrB : sortRowRef) (idx : Nat)
    (hWA : sortBlockWF (pipeSortKeyCount ps) bA)
    (hWB : sortBlockWF (pipeSortKeyCount ps) bB)
    (hidx : idx < pipeSortKeyCount ps)
    (hrA : rrA.rowIdx < bA.br.timestamps.length)
    (hrB : rrB.rowIdx < bB.br.timestamps.length) :
    sortBlockCompareAtChecked ps bA rrA bB rrB idx =
      some (sortBlockCompareAt ps bA rrA bB rrB idx) := by
  have hiA : idx < bA.byColumns.length := by rw [hWA.1]; exact hidx
  have hiB : idx < bB.byColumns.length := by rw [hWB.1]; exact hidx
  have hcWA := hWA.2 _ (List.get?_mem (List_get?_getD bA.byColumns idx default hiA))
  have hcWB := hWB.2 _ (List.get?_mem (List_get?_getD bB.byColumns idx default hiB))
  unfold sortBlockCompareAtChecked
  simp only [Option.bind_eq_bind, List_get?_getD bA.byColumns idx default hiA,
    List_get?_getD bB.byColumns idx default hiB, effectiveDescChecked_eq ps idx hidx,
    Option.some_bind]
  simp only [sortBlockCompareAt]
  set cA := bA.byColumns.getD idx default with hcA
  set cB := bB.byColumns.getD idx default with hcB
  set d := effectiveDesc ps idx with hdd
  cases hCA : cA.c.isConst <;> cases hCB : cB.c.isConst <;>
    simp only [hCA, hCB, Bool.and_self, Bool.and_false, Bool.false_and, Bool.and_true,
      Bool.true_and, Bool.false_eq_true, if_true, if_false]
  on_goal 4 => (
    have hTA : cA.c.isTime = false := by
      cases h : cA.c.isTime
      · rfl
      · have := hcWA.1 h
        rw [hCA] at this
        exact nomatch this
    have hTB : cB.c.isTime = false := by
      cases h : cB.c.isTime
      · rfl
      · have := hcWB.1 h
        rw [hCB] at this
        exact nomatch this
    simp only [Option.bind_eq_bind,
      List_get?_getD cA.c.encodedValues 0 "" (by rw [(hcWA.2.1 hTA hCA).1]; omega),
      List_get?_getD cB.c.encodedValues 0 "" (by rw [(hcWB.2.1 hTB hCB).1]; omega),
      Option.some_bind]
    by_cases hcc : cA.c.encodedValues.getD 0 "" = cB.c.encodedValues.getD 0 ""
    · rw [if_pos hcc, if_pos hcc]
      rfl
    · rw [if_neg hcc, if_neg hcc]
      rfl)
  -- remaining goals: time and numeric tiers
  all_goals (
    cases hTA : cA.c.isTime <;> cases hTB : cB.c.isTime <;>
      simp only [hTA, hTB, Bool.and_self, Bool.and_false, Bool.false_and, Bool.and_true,
        Bool.true_and, Bool.false_eq_true, if_true, if_false])
  all_goals try rfl
  -- both time
  all_goals try (
    simp only [Option.bind_eq_bind,
      List_get?_getD bA.br.timestamps rrA.rowIdx 0 hrA,
      List_get?_getD bB.br.timestamps rrB.rowIdx 0 hrB,
      Option.some_bind]
    by_cases ht : bA.br.timestamps.getD rrA.rowIdx 0 = bB.br.timestamps.getD rrB.rowIdx 0
    · rw [if_pos ht, if_pos ht]
      rfl
    · rw [if_neg ht, if_neg ht]
      by_cases hdt : d = true
      · rw [if_pos hdt, if_pos hdt]
        rfl
      · rw [if_neg hdt, if_neg hdt]
        rfl)
  -- numeric tiers
  all_goals (
    simp only [Option.bind_eq_bind,
      getI64Checked_eq cA rrA.rowIdx bA.br.timestamps.length hcWA hTA hrA,
      getI64Checked_eq cB rrB.rowIdx bB.br.timestamps.length hcWB hTB hrB,
      Option.some_bind]
    by_cases hu : cA.getI64ValueAtRow rrA.rowIdx ≠ 0 ∧ cB.getI64ValueAtRow rrB.rowIdx ≠ 0
    · rw [if_pos hu, if_pos hu]
      by_cases huEq : cA.getI64ValueAtRow rrA.rowIdx = cB.getI64ValueAtRow rrB.rowIdx
      · rw [if_pos huEq, if_pos huEq]
        rfl
      · rw [if_neg huEq, if_neg huEq]
        by_cases hdt : d = true
        · rw [if_pos hdt, if_pos hdt]
          rfl
        · rw [if_neg hdt, if_neg hdt]
          rfl
    · rw [if_neg hu, if_neg hu]
      simp only [Option.bind_eq_bind,
        getF64Checked_eq cA rrA.rowIdx bA.br.timestamps.length hcWA hTA hrA,
        getF64Checked_eq cB rrB.rowIdx bB.br.timestamps.length hcWB hTB hrB,
        Option.some_bind]
      by_cases hnan : (!(cA.getF64ValueAtRow rrA.rowIdx).isNaN &&
          !(cB.getF64ValueAtRow rrB.rowIdx).isNaN) = true
      · rw [if_pos hnan, if_pos hnan]
        by_cases hfe : (cA.getF64ValueAtRow rrA.rowIdx).eqv (cB.getF64ValueAtRow rrB.rowIdx) = true
        · rw [if_pos hfe, if_pos hfe]
          rfl
        · rw [if_neg hfe, if_neg hfe]
          by_cases hdt : d = true
          · rw [if_pos hdt, if_pos hdt]
            rfl
          · rw [if_neg hdt, if_neg hdt]
            rfl
      · rw [if_neg hnan, if_neg hnan]
        simp only [Option.bind_eq_bind,
          getValueChecked_eq cA bA.br rrA.rowIdx bA.br.timestamps.length hcWA hTA hrA,
          getValueChecked_eq cB bB.br rrB.rowIdx bB.br.timestamps.length hcWB hTB hrB,
          Option.some_bind]
        by_cases hss : cA.c.getValueAtRow bA.br rrA.rowIdx = cB.c.getValueAtRow bB.br rrB.rowIdx
        · rw [if_pos hss, if_pos hss]
          rfl
        · rw [if_neg hss, if_neg hss]
          by_cases hdt : d = true
          · rw [if_pos hdt, if_pos hdt]
            rfl
          · rw [if_neg hdt, if_neg hdt]
            rfl)

/-- `writeBlock` leaves the numeric side arrays of every `isTime` key column
uninitialized (nil), and preserves that property of existing blocks. -/
lemma writeBlock_time_arrays_nil (shard : pipeSortProcessorShard) (br : blockResult)
    (h : ∀ sb ∈ shard.blocks, ∀ bc ∈ sb.byColumns, bc.c.isTime = true →
      bc.i64Values = [] ∧ bc.f64Values = []) :
    ∀ sb ∈ (shard.writeBlock br).blocks, ∀ bc ∈ sb.byColumns, bc.c.isTime = true →
      bc.i64Values = [] ∧ bc.f64Values = [] := by
  unfold pipeSortProcessorShard.writeBlock
  by_cases hbf : shard.ps.byFields.length = 0
  · simp only [hbf, if_pos]
    intro sb hsb bc hbc hT
    rcases List.mem_append.mp hsb with hm | hm
    · exact h sb hm bc hbc hT
    · rw [List.mem_singleton.mp hm] at hbc
      rw [List.mem_singleton.mp hbc] at hT
      exact nomatch hT
  · simp only [hbf, if_neg, if_false]
    intro sb hsb bc hbc hT
    rcases List.mem_append.mp hsb with hm | hm
    · exact h sb hm bc hbc hT
    · rw [List.mem_singleton.mp hm] at hbc
      obtain ⟨bf, _, hrfl⟩ := List.mem_map.mp hbc
      by_cases hTc : (br.getColumnByName bf.name).isTime = true
      · simp only [hTc, if_true] at hrfl
        rw [← hrfl]
        exact ⟨rfl, rfl⟩
      · simp only [Bool.not_eq_true] at hTc
        simp only [hTc, Bool.false_eq_true, if_false] at hrfl
        rw [← hrfl] at hT
        by_cases hC : (br.getColumnByName bf.name).isConst = true
        · simp only [hC, if_true] at hT
          rw [hTc] at hT
          exact nomatch hT
        · simp only [Bool.not_eq_true] at hC
          simp only [hC, Bool.false_eq_true, if_false] at hT
          rw [hTc] at hT
          exact nomatch hT

/-- The checked key loop agrees with the unchecked loop over in-range key
indices. -/
lemma sortBlockLessLoopChecked_eq (ps : pipeSort) (bA : sortBlock) (rrA : sortRowRef)
    (bB : sortBlock) (rrB : sortRowRef)
    (hWA : sortBlockWF (pipeSortKeyCount ps) bA)
    (hWB : sortBlockWF (pipeSortKeyCount ps) bB)
    (hrA : rrA.rowIdx < bA.br.timestamps.length)
    (hrB : rrB.rowIdx < bB.br.timestamps.length) :
    ∀ l : List Nat, (∀ i ∈ l, i < pipeSortKeyCount ps) →
      sortBlockLessLoopChecked ps bA rrA bB rrB l =
        some (sortBlockLessLoop ps bA rrA bB rrB l) := by
  intro l
  induction l with
  | nil => intro _; rfl
  | cons i rest ih =>
    intro hall
    simp only [sortBlockLessLoopChecked, sortBlockLessLoop]
    rw [sortBlockCompareAtChecked_eq ps bA rrA bB rrB i hWA hWB
      (hall i (List.mem_cons_self i rest)) hrA hrB]
    cases h : sortBlockCompareAt ps bA rrA bB rrB i with
    | none => exact ih (fun j hj => hall j (List.mem_cons_of_mem i hj))
    | some r => rfl

/-- C9: `writeBlock` leaves the `i64Values` and `f64Values` arrays of every
`isTime` key column nil, yet no comparison ever indexes them: `writeBlock`
preserves shard well-formedness, and on well-formed shards with the same sort
configuration the fully bounds-checked comparator performs no out-of-bounds
access and returns exactly `sortBlockLess` — whenever either side's key
column is `isTime`, the comparator returns inside the time branches before
reaching `getI64ValueAtRow` or `getF64ValueAtRow`, and every numeric-tier
array access happens on arrays of the required length. -/
theorem sortBlockLess_checked_safe :
    (∀ (shard : pipeSortProcessorShard) (br : blockResult),
      (∀ sb ∈ shard.blocks, ∀ bc ∈ sb.byColumns, bc.c.isTime = true →
        bc.i64Values = [] ∧ bc.f64Values = []) →
      ∀ sb ∈ (shard.writeBlock br).blocks, ∀ bc ∈ sb.byColumns, bc.c.isTime = true →
        bc.i64Values = [] ∧ bc.f64Values = []) ∧
    (∀ (shard : pipeSortProcessorShard) (br : blockResult),
      blockResultWF br → shardWF shard → shardWF (shard.writeBlock br)) ∧
    (∀ (shardA : pipeSortProcessorShard) (rowIdxA : Nat) (shardB : pipeSortProcessorShard)
        (rowIdxB : Nat),
      shardA.ps = shardB.ps → shardWF shardA → shardWF shardB →
      rowIdxA < shardA.rowRefs.length → rowIdxB < shardB.rowRefs.length →
      sortBlockLessChecked shardA rowIdxA shardB rowIdxB =
        some (sortBlockLess shardA rowIdxA shardB rowIdxB)) := by
  refine ⟨writeBlock_time_arrays_nil, writeBlock_preserves_WF, ?_⟩
  intro sA iA sB iB hps hWA hWB hiA hiB
  have hrrA := List_get?_getD sA.rowRefs iA default hiA
  have hrrB := List_get?_getD sB.rowRefs iB default hiB
  have hbndA := hWA.2 _ (List.get?_mem hrrA)
  have hbndB := hWB.2 _ (List.get?_mem hrrB)
  have hbAq := List_get?_getD sA.blocks (sA.rowRefs.getD iA default).blockIdx default hbndA.1
  have hbBq := List_get?_getD sB.blocks (sB.rowRefs.getD iB default).blockIdx default hbndB.1
  have hWbA := hWA.1 _ (List.get?_mem hbAq)
  have hWbB := hWB.1 _ (List.get?_mem hbBq)
  rw [← hps] at hWbB
  unfold sortBlockLessChecked
  simp only [Option.bind_eq_bind, hrrA, Option.some_bind, hrrB, hbAq, hbBq]
  unfold sortBlockLess sortRowRefLess
  rw [sortBlockLessLoopChecked_eq sA.ps _ _ _ _ hWbA hWbB hbndA.2 hbndB.2
    (List.range (sA.blocks.getD (sA.rowRefs.getD iA default).blockIdx default).byColumns.length)
    (fun i hi => by rw [← hWbA.1]; exact List.mem_range.mp hi)]

/-- Witness for `sortBlockLess_checked_safe`: on the concrete time-keyed
shard, the time key column's side arrays are nil, and the checked comparator
still succeeds and agrees with `sortBlockLess` (deciding by timestamps). -/
theorem sortBlockLess_checked_safe_witness :
    ((c9Shard.blocks.getD 0 default).byColumns.getD 0 default).i64Values = [] ∧
    sortBlockLessChecked c9Shard 0 c9Shard 1 = some (sortBlockLess c9Shard 0 c9Shard 1) ∧
    sortBlockLessChecked c9Shard 0 c9Shard 1 = some false := by
  have h := sortBlockLess_checked_safe.2.2 c9Shard 0 c9Shard 1 rfl
    (by unfold shardWF sortBlockWF sortBlockByColumnWF pipeSortKeyCount; decide)
    (by unfold shardWF sortBlockWF sortBlockByColumnWF pipeSortKeyCount; decide)
    (by decide) (by decide)
  exact ⟨by decide, h, h.trans (by decide)⟩

